import Mathlib

/-!
# hdoc: `support/ParallelExecutor.cpp`

A shallow embedding of `MyDiagnosticConsumer::HandleDiagnostic` and of
`hdoc::indexer::ParallelExecutor::execute`, with the properties of the
diagnostic counters, of the debug limit, of the aggregate counters and of the
summary line.

* Machine integers (`size_t`, `std::atomic_size_t`) are natural numbers reduced
  modulo `2 ^ 64` at every arithmetic operation.
* Every `spdlog` call site is one constructor of `LogCall`; its level and its
  rendered text are `LogCall.level` and `LogCall.text`.
* The clang tool and the action factory are outside the repository: what one
  run of `Tool.run` does for a job (the diagnostics it reports, the integer it
  returns) is given by an `Env`.
* The thread pool is modelled by interleaving: `step` advances either the
  calling thread or one task by one atomic action, and a schedule is a list of
  such events.
-/

namespace Hdoc

/-! ## Machine integers -/

/-- The number of values of `size_t` (64 bit). -/
def SIZE_MOD : Nat := 18446744073709551616

/-- Addition on `size_t`, as done by `++`, `+=` and the atomic `fetch_add`. -/
def addSize (a b : Nat) : Nat := (a + b) % SIZE_MOD

/-! ## Logging -/

/-- The levels of `spdlog::level::level_enum`, in increasing strictness. -/
inductive LogLevel where
  | trace
  | debug
  | info
  | warn
  | err
  | critical
  | off
  deriving DecidableEq, Repr

/-- The numeric value of a level in `spdlog::level::level_enum`. -/
def LogLevel.toNat : LogLevel → Nat
  | .trace => 0
  | .debug => 1
  | .info => 2
  | .warn => 3
  | .err => 4
  | .critical => 5
  | .off => 6

/-- One call of a `spdlog` logging function in `ParallelExecutor.cpp`, with the
arguments it is given. -/
inductive LogCall where
  /-- The call `spdlog::error("{}", message.c_str())` of `HandleDiagnostic`
  (line 27); `message` is the argument as passed, the value of `message.c_str()`. -/
  | missingFile (message : String)
  /-- The call `spdlog::info("Encountered error while processing {}: {}", fileName,
  message.c_str())` (line 31); `message` is the value of `message.c_str()`. -/
  | verboseError (fileName message : String)
  /-- The call `spdlog::info("[{}/{}] processing {}", ++i, totalNumFiles, path)` (line 63). -/
  | progress (i : Nat) (totalNumFiles path : String)
  /-- The call `spdlog::error("Clang failed to parse source file: {}. ...", path)` (line 87). -/
  | parseFailure (path : String)
  /-- The call `spdlog::error("Clang encountered {} errors and {} warnings{}", ...)` (line 103). -/
  | summaryErrors (totalErrors totalWarnings : Nat) (logVerboseMsg : String)
  /-- The call `spdlog::warn("Clang encountered {} warnings", totalWarnings)` (line 105). -/
  | summaryWarnings (totalWarnings : Nat)
  deriving DecidableEq, Repr

/-- The level a call logs at: the `spdlog` function it calls. -/
def LogCall.level : LogCall → LogLevel
  | .missingFile _ => .err
  | .verboseError _ _ => .info
  | .progress _ _ _ => .info
  | .parseFailure _ => .err
  | .summaryErrors _ _ _ => .err
  | .summaryWarnings _ => .warn

/-- The text of the line: the format string with its arguments filled in. -/
def LogCall.text : LogCall → String
  | .missingFile message => message
  | .verboseError fileName message =>
      "Encountered error while processing " ++ fileName ++ ": " ++ message
  | .progress i totalNumFiles path =>
      "[" ++ toString i ++ "/" ++ totalNumFiles ++ "] processing " ++ path
  | .parseFailure path =>
      "Clang failed to parse source file: " ++ path ++
        ". Information from this file may be missing from hdoc\x27s output"
  | .summaryErrors totalErrors totalWarnings logVerboseMsg =>
      "Clang encountered " ++ toString totalErrors ++ " errors and " ++
        toString totalWarnings ++ " warnings" ++ logVerboseMsg
  | .summaryWarnings totalWarnings =>
      "Clang encountered " ++ toString totalWarnings ++ " warnings"

/-- Whether a logger whose level is `threshold` writes the call out: `spdlog`
writes a message when its level is at least the level of the logger. -/
def LogCall.shown (threshold : LogLevel) (c : LogCall) : Bool :=
  decide (threshold.toNat ≤ c.level.toNat)

/-- Whether the call is the final summary of `execute` (lines 103 and 105). -/
def LogCall.isSummary : LogCall → Bool
  | .summaryErrors _ _ _ => true
  | .summaryWarnings _ => true
  | _ => false

/-- Whether the call is the per-job failure line of `execute` (line 87). -/
def LogCall.isParseFailure : LogCall → Bool
  | .parseFailure _ => true
  | _ => false

/-! ## Substring search -/

/-- Position of the first occurrence of `needle` in `hay` at or after the
position `pos` where `hay` starts, as `find` computes it; `none` is `npos`. -/
def findFrom (needle : List Char) : List Char → Nat → Option Nat
  | [], pos => if needle.isPrefixOf [] then some pos else none
  | c :: cs, pos =>
      if needle.isPrefixOf (c :: cs) then some pos else findFrom needle cs (pos + 1)

/-- The test `message.find(needle) != npos`. -/
def containsText (message needle : String) : Bool :=
  (findFrom needle.data message.data 0).isSome

/-- The text that `message.c_str()` denotes: the characters of `message` before
its first NUL character, all of them when it has none. -/
def c_str (message : String) : String :=
  ⟨message.data.takeWhile (fun ch => decide (ch ≠ Char.ofNat 0))⟩

/-- The text `HandleDiagnostic` looks for. -/
def noSuchFile : String := "no such file or directory"

/-! ## `MyDiagnosticConsumer` -/

/-- The levels of `clang::DiagnosticsEngine::Level`. -/
inductive Level where
  | Ignored
  | Note
  | Remark
  | Warning
  | Error
  | Fatal
  deriving DecidableEq, Repr

/-- A diagnostic as `HandleDiagnostic` receives it: its level and the message
`Info.FormatDiagnostic` produces, which may hold any characters. -/
structure Diagnostic where
  DiagLevel : Level
  message : String
  deriving DecidableEq, Repr

/-- The fields of `MyDiagnosticConsumer`. -/
structure MyDiagnosticConsumer where
  fileName : String
  numWarnings : Nat
  numErrors : Nat
  deriving DecidableEq, Repr

/-- The constructor `MyDiagnosticConsumer(fileName)`: both counters start at 0. -/
def MyDiagnosticConsumer.new (fileName : String) : MyDiagnosticConsumer :=
  { fileName := fileName, numWarnings := 0, numErrors := 0 }

/-- The method `MyDiagnosticConsumer::HandleDiagnostic` (lines 16-37): the consumer after
the call and the log calls made during it. The text is looked for in the whole
message (line 25); the log calls are given `message.c_str()` (lines 27, 31). -/
def HandleDiagnostic (c : MyDiagnosticConsumer) (d : Diagnostic) :
    MyDiagnosticConsumer × List LogCall :=
  if d.DiagLevel = Level.Error then
    let out :=
      if containsText d.message noSuchFile then
        [LogCall.missingFile (c_str d.message)]
      else
        [LogCall.verboseError c.fileName (c_str d.message)]
    ({ c with numErrors := addSize c.numErrors 1 }, out)
  else if d.DiagLevel = Level.Warning then
    ({ c with numWarnings := addSize c.numWarnings 1 }, [])
  else
    (c, [])

/-- The consumer after `HandleDiagnostic` has been called on each diagnostic of
`ds` in turn. -/
def handleAll (c : MyDiagnosticConsumer) : List Diagnostic → MyDiagnosticConsumer
  | [] => c
  | d :: ds => handleAll (HandleDiagnostic c d).1 ds

/-- How many diagnostics of `ds` have exactly the level `l`. -/
def countLevel (l : Level) (ds : List Diagnostic) : Nat :=
  (ds.filter (fun d => decide (d.DiagLevel = l))).length

/-! ## The executor -/

/-- What one call `Tool.run(action.get())` does for one job: the diagnostics it
passes to the diagnostic consumer, in order, and the integer it returns (0 when
the job was processed, non-zero otherwise). -/
structure ToolRun where
  diags : List Diagnostic
  ret : Int
  deriving DecidableEq, Repr

/-- What surrounds one call of `execute`. -/
structure Env where
  /-- The run of the tool for the job submitted as number `k` (from 0) with the
  given path. -/
  toolRun : Nat → String → ToolRun
  /-- The value of `spdlog::get_level()`. -/
  logLevel : LogLevel
  /-- The number of worker threads of `this->pool`. -/
  poolSize : Nat

/-- The fields of `ParallelExecutor` that `execute` reads. -/
structure ParallelExecutor where
  /-- The value of `this->cmpdb.getAllFiles()`. -/
  allFiles : List String
  /-- Modelled from the spec: the declaration of this field is in
  `support/ParallelExecutor.hpp`, which is not among the sources; the spec has
  it as a non-negative integer. -/
  debugLimitNumIndexedFiles : Nat
  deriving DecidableEq, Repr

/-- The call `std::vector<std::string>::resize(n)`: the first `n` elements when the
vector has at least `n`, otherwise the vector followed by empty strings up to
the size `n`. -/
def resize (v : List String) (n : Nat) : List String :=
  v.take n ++ List.replicate (n - v.length) ""

/-- The local `allFilesInCmpdb` when the loop of line 60 starts (lines 51-56). -/
def allFilesInCmpdb (ex : ParallelExecutor) : List String :=
  if ex.debugLimitNumIndexedFiles > 0 then
    resize ex.allFiles ex.debugLimitNumIndexedFiles
  else
    ex.allFiles

/-- The local `totalNumFiles` when the loop of line 60 starts (lines 49-56). -/
def totalNumFiles (ex : ParallelExecutor) : String :=
  if ex.debugLimitNumIndexedFiles > 0 then
    toString ex.debugLimitNumIndexedFiles
  else
    toString ex.allFiles.length

/-- Where the closure of one task is in its body (lines 62-94). -/
inductive TaskPc where
  /-- Handed to the pool, not yet started. -/
  | queued
  /-- Past line 63, inside `Tool.run`: the consumer so far and the diagnostics
  the tool has still to report. -/
  | running (diagConsumer : MyDiagnosticConsumer) (pending : List Diagnostic)
  /-- Past line 90: `Tool.run` has returned and the failure line, if any, is
  logged. -/
  | returned (diagConsumer : MyDiagnosticConsumer)
  /-- Past line 92. -/
  | addedWarnings (diagConsumer : MyDiagnosticConsumer)
  /-- Past line 93: the closure has finished running. -/
  | finished
  deriving DecidableEq, Repr

/-- One task handed to the pool: its number in submission order, the `path` it
was given, and where it is. -/
structure Task where
  idx : Nat
  path : String
  pc : TaskPc
  deriving DecidableEq, Repr

/-- Where the thread that called `execute` is. -/
inductive Phase where
  /-- In the loop of line 60, with the files still to submit. -/
  | dispatching (rest : List String)
  /-- In `this->pool.wait()` (line 98). -/
  | draining
  /-- Past the summary (lines 100-106): `execute` has returned. -/
  | summarized
  deriving DecidableEq, Repr

/-- The state of one call of `execute`: its locals, the tasks handed to the
pool and the log so far. -/
structure ExecState where
  i : Nat
  totalNumFiles : String
  totalWarnings : Nat
  totalErrors : Nat
  phase : Phase
  tasks : List Task
  log : List LogCall
  deriving DecidableEq, Repr

/-- The state when the loop of line 60 starts (lines 48-59). -/
def execInit (ex : ParallelExecutor) : ExecState :=
  { i := 0
    totalNumFiles := totalNumFiles ex
    totalWarnings := 0
    totalErrors := 0
    phase := Phase.dispatching (allFilesInCmpdb ex)
    tasks := []
    log := [] }

/-- Whether the closure of the task has started (is past `++i`). -/
def TaskPc.isStarted : TaskPc → Bool
  | .queued => false
  | _ => true

/-- Whether the closure of the task has finished running. -/
def TaskPc.isFinished : TaskPc → Bool
  | .finished => true
  | _ => false

/-- Whether the task occupies a worker thread. -/
def TaskPc.isActive (pc : TaskPc) : Bool :=
  pc.isStarted && !pc.isFinished

/-- The number of tasks that occupy a worker thread. -/
def activeCount (tasks : List Task) : Nat :=
  (tasks.filter (fun t => t.pc.isActive)).length

/-- The number of tasks whose closure has started. -/
def startedCount (tasks : List Task) : Nat :=
  (tasks.filter (fun t => t.pc.isStarted)).length

/-- The number of tasks whose closure has finished running. -/
def finishedCount (tasks : List Task) : Nat :=
  (tasks.filter (fun t => t.pc.isFinished)).length

/-- The hint of line 102. -/
def verboseHint : String := " (run with --verbose for more details)"

/-- The summary (lines 100-106): the log calls it makes. -/
def summary (logLevel : LogLevel) (totalErrors totalWarnings : Nat) : List LogCall :=
  if totalErrors > 0 then
    let logVerboseMsg := if logLevel.toNat > LogLevel.info.toNat then verboseHint else ""
    [LogCall.summaryErrors totalErrors totalWarnings logVerboseMsg]
  else if totalWarnings > 0 then
    [LogCall.summaryWarnings totalWarnings]
  else
    []

/-- One action of the thread that called `execute`: submit the next file to the
pool (lines 60-61), leave the loop and enter `pool.wait()`, or, once every task
has finished, return from `pool.wait()` and log the summary. -/
def stepMain (env : Env) (s : ExecState) : Option ExecState :=
  match s.phase with
  | .dispatching (file :: rest) =>
      some { s with
        phase := Phase.dispatching rest
        tasks := s.tasks ++ [{ idx := s.tasks.length, path := file, pc := TaskPc.queued }] }
  | .dispatching [] => some { s with phase := Phase.draining }
  | .draining =>
      if s.tasks.all (fun t => t.pc.isFinished) then
        some { s with
          phase := Phase.summarized
          log := s.log ++ summary env.logLevel s.totalErrors s.totalWarnings }
      else
        none
  | .summarized => none

/-- One action of the task submitted as number `k`: start on a free worker
(`++i` and the progress line, line 63), let the tool report its next
diagnostic, let `Tool.run` return (lines 86-90), add the warnings (line 92),
add the errors (line 93). -/
def stepTask (env : Env) (s : ExecState) (k : Nat) : Option ExecState :=
  match s.tasks[k]? with
  | none => none
  | some t =>
    match t.pc with
    | .queued =>
        if activeCount s.tasks < env.poolSize then
          let i' := addSize s.i 1
          some { s with
            i := i'
            log := s.log ++ [LogCall.progress i' s.totalNumFiles t.path]
            tasks := s.tasks.set k { t with
              pc := TaskPc.running (MyDiagnosticConsumer.new t.path)
                (env.toolRun t.idx t.path).diags } }
        else
          none
    | .running diagConsumer (d :: pending) =>
        some { s with
          log := s.log ++ (HandleDiagnostic diagConsumer d).2
          tasks := s.tasks.set k { t with
            pc := TaskPc.running (HandleDiagnostic diagConsumer d).1 pending } }
    | .running diagConsumer [] =>
        some { s with
          log := s.log ++
            (if (env.toolRun t.idx t.path).ret ≠ 0 then [LogCall.parseFailure t.path] else [])
          tasks := s.tasks.set k { t with pc := TaskPc.returned diagConsumer } }
    | .returned diagConsumer =>
        some { s with
          totalWarnings := addSize s.totalWarnings diagConsumer.numWarnings
          tasks := s.tasks.set k { t with pc := TaskPc.addedWarnings diagConsumer } }
    | .addedWarnings diagConsumer =>
        some { s with
          totalErrors := addSize s.totalErrors diagConsumer.numErrors
          tasks := s.tasks.set k { t with pc := TaskPc.finished } }
    | .finished => none

/-- Which thread acts next. -/
inductive Event where
  /-- The thread that called `execute`. -/
  | main
  /-- The task submitted as number `k`. -/
  | task (k : Nat)
  deriving DecidableEq, Repr

/-- One atomic action of one thread; `none` when that thread cannot act. -/
def step (env : Env) (s : ExecState) : Event → Option ExecState
  | .main => stepMain env s
  | .task k => stepTask env s k

/-- The state after the events of a schedule, in order. -/
def runEvents (env : Env) : ExecState → List Event → Option ExecState
  | s, [] => some s
  | s, e :: es =>
      match step env s e with
      | none => none
      | some s' => runEvents env s' es

/-- The method `ParallelExecutor::execute` under a schedule of the threads. -/
def execute (env : Env) (ex : ParallelExecutor) (schedule : List Event) : Option ExecState :=
  runEvents env (execInit ex) schedule

/-- The states `execute` can be in. -/
def Reachable (env : Env) (ex : ParallelExecutor) (s : ExecState) : Prop :=
  ∃ schedule, execute env ex schedule = some s

/-- The pool has drained: the calling thread is in or past `pool.wait()` and
every task has finished. -/
def Drained (s : ExecState) : Prop :=
  (s.phase = Phase.draining ∨ s.phase = Phase.summarized) ∧
    ∀ t ∈ s.tasks, t.pc = TaskPc.finished

/-! ## The step relation -/

/-- The task `t` with its closure moved on to `pc`. -/
def Task.at (t : Task) (pc : TaskPc) : Task :=
  { t with pc := pc }

/-- The atomic actions of the threads of one call of `execute`, as a relation
between the state before and the state after. -/
inductive Step (env : Env) : ExecState → ExecState → Prop where
  /-- The calling thread hands the next file to the pool (lines 60-61). -/
  | submit (s : ExecState) (file : String) (rest : List String)
      (hphase : s.phase = Phase.dispatching (file :: rest)) :
      Step env s { s with
        phase := Phase.dispatching rest
        tasks := s.tasks ++ [{ idx := s.tasks.length, path := file, pc := TaskPc.queued }] }
  /-- The calling thread leaves the loop and enters `pool.wait()`. -/
  | endLoop (s : ExecState) (hphase : s.phase = Phase.dispatching []) :
      Step env s { s with phase := Phase.draining }
  /-- The calling thread returns from `pool.wait()` and logs the summary. -/
  | summarize (s : ExecState) (hphase : s.phase = Phase.draining)
      (hall : s.tasks.all (fun t => t.pc.isFinished) = true) :
      Step env s { s with
        phase := Phase.summarized
        log := s.log ++ summary env.logLevel s.totalErrors s.totalWarnings }
  /-- A task starts on a free worker: `++i` and the progress line (line 63). -/
  | start (s : ExecState) (k : Nat) (t : Task) (ht : s.tasks[k]? = some t)
      (hpc : t.pc = TaskPc.queued) (hpool : activeCount s.tasks < env.poolSize) :
      Step env s { s with
        i := addSize s.i 1
        log := s.log ++ [LogCall.progress (addSize s.i 1) s.totalNumFiles t.path]
        tasks := s.tasks.set k { t with
          pc := TaskPc.running (MyDiagnosticConsumer.new t.path)
            (env.toolRun t.idx t.path).diags } }
  /-- The tool of a task reports its next diagnostic. -/
  | diag (s : ExecState) (k : Nat) (t : Task) (c : MyDiagnosticConsumer) (d : Diagnostic)
      (pending : List Diagnostic) (ht : s.tasks[k]? = some t)
      (hpc : t.pc = TaskPc.running c (d :: pending)) :
      Step env s { s with
        log := s.log ++ (HandleDiagnostic c d).2
        tasks := s.tasks.set k { t with pc := TaskPc.running (HandleDiagnostic c d).1 pending } }
  /-- The call `Tool.run` of a task returns (lines 86-90). -/
  | toolReturn (s : ExecState) (k : Nat) (t : Task) (c : MyDiagnosticConsumer)
      (ht : s.tasks[k]? = some t) (hpc : t.pc = TaskPc.running c []) :
      Step env s { s with
        log := s.log ++
          (if (env.toolRun t.idx t.path).ret ≠ 0 then [LogCall.parseFailure t.path] else [])
        tasks := s.tasks.set k { t with pc := TaskPc.returned c } }
  /-- A task adds its warnings to `totalWarnings` (line 92). -/
  | addWarnings (s : ExecState) (k : Nat) (t : Task) (c : MyDiagnosticConsumer)
      (ht : s.tasks[k]? = some t) (hpc : t.pc = TaskPc.returned c) :
      Step env s { s with
        totalWarnings := addSize s.totalWarnings c.numWarnings
        tasks := s.tasks.set k { t with pc := TaskPc.addedWarnings c } }
  /-- A task adds its errors to `totalErrors` (line 93) and finishes. -/
  | addErrors (s : ExecState) (k : Nat) (t : Task) (c : MyDiagnosticConsumer)
      (ht : s.tasks[k]? = some t) (hpc : t.pc = TaskPc.addedWarnings c) :
      Step env s { s with
        totalErrors := addSize s.totalErrors c.numErrors
        tasks := s.tasks.set k { t with pc := TaskPc.finished } }

/-! ## What the invariants speak about -/

/-- The files the calling thread has still to submit. -/
def Phase.rest : Phase → List String
  | .dispatching rest => rest
  | _ => []

/-- The diagnostic consumer of a task as it is when `Tool.run` has returned. -/
def finalConsumer (env : Env) (t : Task) : MyDiagnosticConsumer :=
  handleAll (MyDiagnosticConsumer.new t.path) (env.toolRun t.idx t.path).diags

/-- The diagnostic consumers of the jobs of a job list, each as it is when
`Tool.run` has returned for the job. -/
def jobConsumers (env : Env) (files : List String) : List MyDiagnosticConsumer :=
  files.enum.map
    (fun kp => handleAll (MyDiagnosticConsumer.new kp.2) (env.toolRun kp.1 kp.2).diags)

/-- The consumer a task holds leads to its final consumer. -/
def TaskOk (env : Env) (t : Task) : Prop :=
  match t.pc with
  | .queued => True
  | .running c pending => handleAll c pending = finalConsumer env t
  | .returned c => c = finalConsumer env t
  | .addedWarnings c => c = finalConsumer env t
  | .finished => True

/-- Contribution of a task to `i`. -/
def startedOne (t : Task) : Nat :=
  if t.pc.isStarted then 1 else 0

/-- Contribution of a task to `totalWarnings`. -/
def warningsAdded (env : Env) (t : Task) : Nat :=
  match t.pc with
  | .addedWarnings _ => (finalConsumer env t).numWarnings
  | .finished => (finalConsumer env t).numWarnings
  | _ => 0

/-- Contribution of a task to `totalErrors`. -/
def errorsAdded (env : Env) (t : Task) : Nat :=
  match t.pc with
  | .finished => (finalConsumer env t).numErrors
  | _ => 0

/-- Whether `Tool.run` has returned in the task. -/
def TaskPc.isReturned : TaskPc → Bool
  | .returned _ => true
  | .addedWarnings _ => true
  | .finished => true
  | _ => false

/-- Contribution of a task to the number of failure lines for the path `p`. -/
def failureLogged (env : Env) (p : String) (t : Task) : Nat :=
  if t.path = p ∧ t.pc.isReturned = true ∧ (env.toolRun t.idx t.path).ret ≠ 0 then 1 else 0

/-- The summary calls the log holds in a state. -/
def summaryOf (env : Env) (s : ExecState) : List LogCall :=
  match s.phase with
  | .summarized => summary env.logLevel s.totalErrors s.totalWarnings
  | _ => []

/-- The invariant of `execute`. -/
structure Inv (env : Env) (ex : ParallelExecutor) (s : ExecState) : Prop where
  i_eq : s.i = (s.tasks.map startedOne).sum % SIZE_MOD
  warnings_eq : s.totalWarnings = (s.tasks.map (warningsAdded env)).sum % SIZE_MOD
  errors_eq : s.totalErrors = (s.tasks.map (errorsAdded env)).sum % SIZE_MOD
  tasks_ok : ∀ t ∈ s.tasks, TaskOk env t
  total_eq : s.totalNumFiles = totalNumFiles ex
  jobs_eq : s.tasks.map (fun t => (t.idx, t.path)) ++ List.enumFrom s.tasks.length s.phase.rest =
    (allFilesInCmpdb ex).enum
  summarized_finished : s.phase = Phase.summarized → ∀ t ∈ s.tasks, t.pc = TaskPc.finished
  progress_total : ∀ k tot p, LogCall.progress k tot p ∈ s.log → tot = totalNumFiles ex
  summary_eq : s.log.filter LogCall.isSummary = summaryOf env s
  failures_eq : ∀ p, s.log.count (LogCall.parseFailure p) =
    (s.tasks.map (failureLogged env p)).sum

/-! ## Termination measure -/

/-- The number of actions a task has still to take. -/
def taskMeasure (env : Env) (t : Task) : Nat :=
  match t.pc with
  | .queued => (env.toolRun t.idx t.path).diags.length + 4
  | .running _ pending => pending.length + 3
  | .returned _ => 2
  | .addedWarnings _ => 1
  | .finished => 0

/-- The number of actions still to take for the files not yet submitted, the
first of which will be task number `n`: one to submit each and those of its
task. -/
def restMeasure (env : Env) : Nat → List String → Nat
  | _, [] => 0
  | n, file :: rest => (env.toolRun n file).diags.length + 5 + restMeasure env (n + 1) rest

/-- The number of actions the calling thread has still to take, with those of
the tasks it has still to submit. -/
def phaseMeasure (env : Env) (n : Nat) : Phase → Nat
  | .dispatching rest => restMeasure env n rest + 2
  | .draining => 1
  | .summarized => 0

/-- The number of actions until `execute` has returned. -/
def stepsLeft (env : Env) (s : ExecState) : Nat :=
  phaseMeasure env s.tasks.length s.phase + (s.tasks.map (taskMeasure env)).sum

/-! ## Failure of the tool -/

/-- The environment in which `Tool.run` reports the same diagnostics and
returns 0 for every job. -/
def allSucceed (env : Env) : Env :=
  { env with toolRun := fun k p => { env.toolRun k p with ret := 0 } }

/-- The state without the failure lines of line 87 in its log. -/
def withoutFailureLines (s : ExecState) : ExecState :=
  { s with log := s.log.filter (fun c => !c.isParseFailure) }

/-! ## Example runs -/

/-- The tool reports one Warning for `a.txt`, two Errors for `b.txt` (and
returns 1 for it) and nothing for any other file; the logger is at level warn
and the pool has two workers. -/
def envABC : Env where
  toolRun := fun _ path =>
    if path = "a.txt" then
      { diags := [⟨Level.Warning, "unused variable"⟩], ret := 0 }
    else if path = "b.txt" then
      { diags := [⟨Level.Error, "unknown type name"⟩, ⟨Level.Error, "expected expression"⟩],
        ret := 1 }
    else
      { diags := [], ret := 0 }
  logLevel := LogLevel.warn
  poolSize := 2

/-- The job list `a.txt`, `b.txt`, `c.txt` without a debug limit. -/
def exABC : ParallelExecutor :=
  { allFiles := ["a.txt", "b.txt", "c.txt"], debugLimitNumIndexedFiles := 0 }

/-- A schedule for `exABC` on two workers in which `b.txt` finishes first,
`c.txt` second and `a.txt` last. -/
def scheduleABC : List Event :=
  [Event.main, Event.main, Event.task 0, Event.main, Event.task 1, Event.task 1,
   Event.task 0, Event.task 1, Event.main, Event.task 1, Event.task 1, Event.task 1,
   Event.task 2, Event.task 0, Event.task 2, Event.task 2, Event.task 0, Event.task 2,
   Event.task 0, Event.main]

/-- The tool reports nothing for any job and returns 1 for the third job
submitted, 0 for the others; the pool has one worker. -/
def envThirdFails : Env where
  toolRun := fun k _ => if k = 2 then { diags := [], ret := 1 } else { diags := [], ret := 0 }
  logLevel := LogLevel.warn
  poolSize := 1

/-- A job list of five files with the debug limit `limit`. -/
def exFive (limit : Nat) : ParallelExecutor :=
  { allFiles := ["1.cpp", "2.cpp", "3.cpp", "4.cpp", "5.cpp"],
    debugLimitNumIndexedFiles := limit }

/-- The schedule of one worker for `n` jobs without diagnostics: all jobs are
submitted, then each task in turn takes its four actions, then the summary. -/
def scheduleSequential (n : Nat) : List Event :=
  List.replicate (n + 1) Event.main ++
    (List.range n).flatMap (fun k => List.replicate 4 (Event.task k)) ++ [Event.main]

/-- The tool reports nothing and returns 0 for every job; the logger is at
level warn and the pool has one worker. -/
def envQuiet : Env where
  toolRun := fun _ _ => { diags := [], ret := 0 }
  logLevel := LogLevel.warn
  poolSize := 1

/-- The state in which `execute` returns for `exABC` in `envABC` under
`scheduleABC`. -/
def finalABC : ExecState :=
  { i := 3
    totalNumFiles := "3"
    totalWarnings := 1
    totalErrors := 2
    phase := Phase.summarized
    tasks := [{ idx := 0, path := "a.txt", pc := TaskPc.finished },
              { idx := 1, path := "b.txt", pc := TaskPc.finished },
              { idx := 2, path := "c.txt", pc := TaskPc.finished }]
    log := [LogCall.progress 1 "3" "a.txt",
            LogCall.progress 2 "3" "b.txt",
            LogCall.verboseError "b.txt" "unknown type name",
            LogCall.verboseError "b.txt" "expected expression",
            LogCall.parseFailure "b.txt",
            LogCall.progress 3 "3" "c.txt",
            LogCall.summaryErrors 2 1 " (run with --verbose for more details)"] }

/-- The state in which `execute` returns for five jobs without a debug limit
in `envThirdFails` under the schedule of one worker. -/
def finalThirdFails : ExecState :=
  { i := 5
    totalNumFiles := "5"
    totalWarnings := 0
    totalErrors := 0
    phase := Phase.summarized
    tasks := [{ idx := 0, path := "1.cpp", pc := TaskPc.finished },
              { idx := 1, path := "2.cpp", pc := TaskPc.finished },
              { idx := 2, path := "3.cpp", pc := TaskPc.finished },
              { idx := 3, path := "4.cpp", pc := TaskPc.finished },
              { idx := 4, path := "5.cpp", pc := TaskPc.finished }]
    log := [LogCall.progress 1 "5" "1.cpp",
            LogCall.progress 2 "5" "2.cpp",
            LogCall.progress 3 "5" "3.cpp",
            LogCall.parseFailure "3.cpp",
            LogCall.progress 4 "5" "4.cpp",
            LogCall.progress 5 "5" "5.cpp"] }

/-- The state in which `execute` returns for five jobs without a debug limit
in `envQuiet` under the schedule of one worker. -/
def finalFiveQuiet : ExecState :=
  { i := 5
    totalNumFiles := "5"
    totalWarnings := 0
    totalErrors := 0
    phase := Phase.summarized
    tasks := [{ idx := 0, path := "1.cpp", pc := TaskPc.finished },
              { idx := 1, path := "2.cpp", pc := TaskPc.finished },
              { idx := 2, path := "3.cpp", pc := TaskPc.finished },
              { idx := 3, path := "4.cpp", pc := TaskPc.finished },
              { idx := 4, path := "5.cpp", pc := TaskPc.finished }]
    log := [LogCall.progress 1 "5" "1.cpp",
            LogCall.progress 2 "5" "2.cpp",
            LogCall.progress 3 "5" "3.cpp",
            LogCall.progress 4 "5" "4.cpp",
            LogCall.progress 5 "5" "5.cpp"] }

/-- The state in which `execute` returns for five jobs with the debug limit 2
in `envQuiet` under the schedule of one worker. -/
def finalLimitTwo : ExecState :=
  { i := 2
    totalNumFiles := "2"
    totalWarnings := 0
    totalErrors := 0
    phase := Phase.summarized
    tasks := [{ idx := 0, path := "1.cpp", pc := TaskPc.finished },
              { idx := 1, path := "2.cpp", pc := TaskPc.finished }]
    log := [LogCall.progress 1 "2" "1.cpp", LogCall.progress 2 "2" "2.cpp"] }

/-- The state of `execute` for the one job `a.txt` in `envABC` when the job has
been submitted and its task has started. -/
def midOneStarted : ExecState :=
  { i := 1
    totalNumFiles := "1"
    totalWarnings := 0
    totalErrors := 0
    phase := Phase.dispatching []
    tasks := [{ idx := 0, path := "a.txt",
                pc := TaskPc.running (MyDiagnosticConsumer.new "a.txt")
                  [⟨Level.Warning, "unused variable"⟩] }]
    log := [LogCall.progress 1 "1" "a.txt"] }

/-! ## Properties of the substring search -/

theorem findFrom_isSome_iff (needle hay : List Char) (pos : Nat) :
    (findFrom needle hay pos).isSome = true ↔ needle <:+: hay := by
  induction hay generalizing pos with
  | nil =>
      cases needle with
      | nil => simp [findFrom]
      | cons a as => simp [findFrom, List.isPrefixOf]
  | cons c cs ih =>
      by_cases h : needle.isPrefixOf (c :: cs) = true
      · have hp : needle <+: c :: cs := List.isPrefixOf_iff_prefix.mp h
        simp only [findFrom, h, if_true, Option.isSome_some, true_iff]
        exact hp.isInfix
      · have hp : ¬ needle <+: c :: cs := fun hp => h (List.isPrefixOf_iff_prefix.mpr hp)
        simp only [findFrom, h]
        rw [List.infix_cons_iff]
        constructor
        · intro hs
          exact Or.inr ((ih (pos + 1)).mp hs)
        · intro hs
          rcases hs with hs | hs
          · exact absurd hs hp
          · exact (ih (pos + 1)).mpr hs

theorem containsText_iff (message needle : String) :
    containsText message needle = true ↔ needle.data <:+: message.data := by
  unfold containsText
  exact findFrom_isSome_iff needle.data message.data 0

/-- A message without a NUL character is passed whole by `c_str()`. -/
theorem c_str_eq_self (message : String) (h : Char.ofNat 0 ∉ message.data) :
    c_str message = message := by
  have h1 : message.data.takeWhile (fun ch => decide (ch ≠ Char.ofNat 0)) = message.data := by
    rw [List.takeWhile_eq_self_iff]
    intro x hx
    have hne : x ≠ Char.ofNat 0 := fun he => h (he ▸ hx)
    simpa using hne
  unfold c_str
  rw [h1]

/-! ## Properties of `HandleDiagnostic` -/

theorem addSize_lt (a b : Nat) : addSize a b < SIZE_MOD := by
  unfold addSize SIZE_MOD
  omega

theorem HandleDiagnostic_fileName (c : MyDiagnosticConsumer) (d : Diagnostic) :
    (HandleDiagnostic c d).1.fileName = c.fileName := by
  unfold HandleDiagnostic
  split
  · rfl
  · split <;> rfl

theorem HandleDiagnostic_numErrors (c : MyDiagnosticConsumer) (d : Diagnostic) :
    (HandleDiagnostic c d).1.numErrors =
      if d.DiagLevel = Level.Error then addSize c.numErrors 1 else c.numErrors := by
  unfold HandleDiagnostic
  by_cases hE : d.DiagLevel = Level.Error
  · simp [hE]
  · by_cases hW : d.DiagLevel = Level.Warning
    · simp [hW]
    · simp [hE, hW]

theorem HandleDiagnostic_numWarnings (c : MyDiagnosticConsumer) (d : Diagnostic) :
    (HandleDiagnostic c d).1.numWarnings =
      if d.DiagLevel = Level.Warning then addSize c.numWarnings 1 else c.numWarnings := by
  unfold HandleDiagnostic
  by_cases hE : d.DiagLevel = Level.Error
  · simp [hE]
  · by_cases hW : d.DiagLevel = Level.Warning
    · simp [hW]
    · simp [hE, hW]

theorem countLevel_cons (l : Level) (d : Diagnostic) (ds : List Diagnostic) :
    countLevel l (d :: ds) = (if d.DiagLevel = l then 1 else 0) + countLevel l ds := by
  unfold countLevel
  by_cases h : d.DiagLevel = l
  · simp [h, List.filter_cons, Nat.add_comm]
  · simp [h, List.filter_cons]

theorem countLevel_le_length (l : Level) (ds : List Diagnostic) :
    countLevel l ds ≤ ds.length := by
  unfold countLevel
  exact List.length_filter_le _ ds

theorem handleAll_numErrors_mod (c : MyDiagnosticConsumer) (ds : List Diagnostic) :
    (handleAll c ds).numErrors % SIZE_MOD =
      (c.numErrors + countLevel Level.Error ds) % SIZE_MOD := by
  induction ds generalizing c with
  | nil => simp [handleAll, countLevel]
  | cons d ds ih =>
      rw [handleAll, ih, HandleDiagnostic_numErrors, countLevel_cons]
      by_cases h : d.DiagLevel = Level.Error
      · simp only [h, if_true, addSize]
        rw [Nat.mod_add_mod, Nat.add_assoc]
      · simp [h]

theorem handleAll_numWarnings_mod (c : MyDiagnosticConsumer) (ds : List Diagnostic) :
    (handleAll c ds).numWarnings % SIZE_MOD =
      (c.numWarnings + countLevel Level.Warning ds) % SIZE_MOD := by
  induction ds generalizing c with
  | nil => simp [handleAll, countLevel]
  | cons d ds ih =>
      rw [handleAll, ih, HandleDiagnostic_numWarnings, countLevel_cons]
      by_cases h : d.DiagLevel = Level.Warning
      · simp only [h, if_true, addSize]
        rw [Nat.mod_add_mod, Nat.add_assoc]
      · simp [h]

theorem handleAll_numErrors_lt (c : MyDiagnosticConsumer) (ds : List Diagnostic)
    (h : c.numErrors < SIZE_MOD) : (handleAll c ds).numErrors < SIZE_MOD := by
  induction ds generalizing c with
  | nil => simpa [handleAll] using h
  | cons d ds ih =>
      rw [handleAll]
      apply ih
      rw [HandleDiagnostic_numErrors]
      split
      · exact addSize_lt _ _
      · exact h

theorem handleAll_numWarnings_lt (c : MyDiagnosticConsumer) (ds : List Diagnostic)
    (h : c.numWarnings < SIZE_MOD) : (handleAll c ds).numWarnings < SIZE_MOD := by
  induction ds generalizing c with
  | nil => simpa [handleAll] using h
  | cons d ds ih =>
      rw [handleAll]
      apply ih
      rw [HandleDiagnostic_numWarnings]
      split
      · exact addSize_lt _ _
      · exact h

theorem handleAll_new_numErrors (fileName : String) (ds : List Diagnostic) :
    (handleAll (MyDiagnosticConsumer.new fileName) ds).numErrors =
      countLevel Level.Error ds % SIZE_MOD := by
  have h1 := handleAll_numErrors_mod (MyDiagnosticConsumer.new fileName) ds
  have h2 := handleAll_numErrors_lt (MyDiagnosticConsumer.new fileName) ds
    (by simp [MyDiagnosticConsumer.new, SIZE_MOD])
  rw [Nat.mod_eq_of_lt h2] at h1
  simpa [MyDiagnosticConsumer.new] using h1

theorem handleAll_new_numWarnings (fileName : String) (ds : List Diagnostic) :
    (handleAll (MyDiagnosticConsumer.new fileName) ds).numWarnings =
      countLevel Level.Warning ds % SIZE_MOD := by
  have h1 := handleAll_numWarnings_mod (MyDiagnosticConsumer.new fileName) ds
  have h2 := handleAll_numWarnings_lt (MyDiagnosticConsumer.new fileName) ds
    (by simp [MyDiagnosticConsumer.new, SIZE_MOD])
  rw [Nat.mod_eq_of_lt h2] at h1
  simpa [MyDiagnosticConsumer.new] using h1

/-! ## Lists of tasks -/

theorem sum_map_set {α : Type} (f : α → Nat) (l : List α) (k : Nat) (a b : α)
    (h : l[k]? = some a) : ((l.set k b).map f).sum + f a = (l.map f).sum + f b := by
  induction l generalizing k with
  | nil => simp at h
  | cons x xs ih =>
      cases k with
      | zero =>
          simp only [List.getElem?_cons_zero, Option.some.injEq] at h
          subst h
          simp only [List.set_cons_zero, List.map_cons, List.sum_cons]
          omega
      | succ k =>
          simp only [List.getElem?_cons_succ] at h
          have := ih k h
          simp only [List.set_cons_succ, List.map_cons, List.sum_cons]
          omega

theorem map_set_same {α β : Type} (g : α → β) (l : List α) (k : Nat) (a b : α)
    (h : l[k]? = some a) (hg : g b = g a) : (l.set k b).map g = l.map g := by
  induction l generalizing k with
  | nil => simp
  | cons x xs ih =>
      cases k with
      | zero =>
          simp only [List.getElem?_cons_zero, Option.some.injEq] at h
          subst h
          simp [hg]
      | succ k =>
          simp only [List.getElem?_cons_succ] at h
          simp [ih k h]

theorem mem_of_getElem?_eq {α : Type} (l : List α) (k : Nat) (a : α) (h : l[k]? = some a) :
    a ∈ l := by
  induction l generalizing k with
  | nil => simp at h
  | cons x xs ih =>
      cases k with
      | zero =>
          simp only [List.getElem?_cons_zero, Option.some.injEq] at h
          simp [h]
      | succ k =>
          simp only [List.getElem?_cons_succ] at h
          exact List.mem_cons_of_mem _ (ih k h)

theorem getElem?_of_mem {α : Type} (l : List α) (a : α) (h : a ∈ l) :
    ∃ k : Nat, l[k]? = some a := by
  induction l with
  | nil => cases h
  | cons x xs ih =>
      rcases List.mem_cons.mp h with h | h
      · exact ⟨0, by simp [h]⟩
      · obtain ⟨k, hk⟩ := ih h
        exact ⟨k + 1, by simpa using hk⟩

theorem mem_set_cases {α : Type} (l : List α) (k : Nat) (b x : α) (h : x ∈ l.set k b) :
    x = b ∨ x ∈ l := by
  induction l generalizing k with
  | nil => simp at h
  | cons y ys ih =>
      cases k with
      | zero =>
          simp only [List.set_cons_zero, List.mem_cons] at h
          rcases h with h | h
          · exact Or.inl h
          · exact Or.inr (List.mem_cons_of_mem _ h)
      | succ k =>
          simp only [List.set_cons_succ, List.mem_cons] at h
          rcases h with h | h
          · exact Or.inr (by simp [h])
          · rcases ih k h with h | h
            · exact Or.inl h
            · exact Or.inr (List.mem_cons_of_mem _ h)

theorem length_filter_eq_sum {α : Type} (p : α → Bool) (l : List α) :
    (l.filter p).length = (l.map (fun a => if p a then 1 else 0)).sum := by
  induction l with
  | nil => rfl
  | cons x xs ih =>
      by_cases h : p x = true
      · simp [List.filter_cons, h, ih, Nat.add_comm]
      · simp [List.filter_cons, h, ih]

theorem startedCount_eq_sum (tasks : List Task) :
    startedCount tasks = (tasks.map startedOne).sum := by
  unfold startedCount
  rw [length_filter_eq_sum]
  rfl

/-! ## The step function and the step relation -/

theorem step_sound (env : Env) (s s' : ExecState) (e : Event) (h : step env s e = some s') :
    Step env s s' := by
  cases e with
  | main =>
      simp only [step, stepMain] at h
      split at h
      · next file rest hphase =>
          cases h
          exact Step.submit s file rest hphase
      · next hphase =>
          cases h
          exact Step.endLoop s hphase
      · next hphase =>
          split at h
          · next hall =>
              cases h
              exact Step.summarize s hphase hall
          · cases h
      · cases h
  | task k =>
      simp only [step, stepTask] at h
      split at h
      · cases h
      · next t ht =>
          split at h
          · next hpc =>
              split at h
              · next hpool =>
                  cases h
                  exact Step.start s k t ht hpc hpool
              · cases h
          · next c d pending hpc =>
              cases h
              exact Step.diag s k t c d pending ht hpc
          · next c hpc =>
              cases h
              exact Step.toolReturn s k t c ht hpc
          · next c hpc =>
              cases h
              exact Step.addWarnings s k t c ht hpc
          · next c hpc =>
              cases h
              exact Step.addErrors s k t c ht hpc
          · cases h

theorem step_complete (env : Env) (s s' : ExecState) (h : Step env s s') :
    ∃ e, step env s e = some s' := by
  cases h with
  | submit file rest hphase => exact ⟨Event.main, by simp [step, stepMain, hphase]⟩
  | endLoop hphase => exact ⟨Event.main, by simp [step, stepMain, hphase]⟩
  | summarize hphase hall => exact ⟨Event.main, by simp [step, stepMain, hphase, hall]⟩
  | start k t ht hpc hpool => exact ⟨Event.task k, by simp [step, stepTask, ht, hpc, hpool]⟩
  | diag k t c d pending ht hpc => exact ⟨Event.task k, by simp [step, stepTask, ht, hpc]⟩
  | toolReturn k t c ht hpc => exact ⟨Event.task k, by simp [step, stepTask, ht, hpc]⟩
  | addWarnings k t c ht hpc => exact ⟨Event.task k, by simp [step, stepTask, ht, hpc]⟩
  | addErrors k t c ht hpc => exact ⟨Event.task k, by simp [step, stepTask, ht, hpc]⟩

/-! ## What the log calls of each action are -/

theorem summary_cases (logLevel : LogLevel) (te tw : Nat) :
    summary logLevel te tw = [] ∨
    (∃ msg, summary logLevel te tw = [LogCall.summaryErrors te tw msg]) ∨
    summary logLevel te tw = [LogCall.summaryWarnings tw] := by
  unfold summary
  split
  · exact Or.inr (Or.inl ⟨_, rfl⟩)
  · split
    · exact Or.inr (Or.inr rfl)
    · exact Or.inl rfl

theorem HandleDiagnostic_log_cases (c : MyDiagnosticConsumer) (d : Diagnostic) :
    (HandleDiagnostic c d).2 = [] ∨
    (HandleDiagnostic c d).2 = [LogCall.missingFile (c_str d.message)] ∨
    (HandleDiagnostic c d).2 = [LogCall.verboseError c.fileName (c_str d.message)] := by
  unfold HandleDiagnostic
  split
  · split
    · exact Or.inr (Or.inl rfl)
    · exact Or.inr (Or.inr rfl)
  · split
    · exact Or.inl rfl
    · exact Or.inl rfl

theorem summary_filter_isSummary (logLevel : LogLevel) (te tw : Nat) :
    (summary logLevel te tw).filter LogCall.isSummary = summary logLevel te tw := by
  rcases summary_cases logLevel te tw with h | ⟨msg, h⟩ | h <;>
    simp [h, LogCall.isSummary]

theorem summary_count_parseFailure (logLevel : LogLevel) (te tw : Nat) (p : String) :
    (summary logLevel te tw).count (LogCall.parseFailure p) = 0 := by
  rcases summary_cases logLevel te tw with h | ⟨msg, h⟩ | h <;> simp [h]

theorem summary_no_progress (logLevel : LogLevel) (te tw k : Nat) (tot p : String) :
    LogCall.progress k tot p ∉ summary logLevel te tw := by
  rcases summary_cases logLevel te tw with h | ⟨msg, h⟩ | h <;> simp [h]

theorem HandleDiagnostic_filter_isSummary (c : MyDiagnosticConsumer) (d : Diagnostic) :
    (HandleDiagnostic c d).2.filter LogCall.isSummary = [] := by
  rcases HandleDiagnostic_log_cases c d with h | h | h <;> simp [h, LogCall.isSummary]

theorem HandleDiagnostic_count_parseFailure (c : MyDiagnosticConsumer) (d : Diagnostic)
    (p : String) : (HandleDiagnostic c d).2.count (LogCall.parseFailure p) = 0 := by
  rcases HandleDiagnostic_log_cases c d with h | h | h <;> simp [h]

theorem HandleDiagnostic_no_progress (c : MyDiagnosticConsumer) (d : Diagnostic) (k : Nat)
    (tot p : String) : LogCall.progress k tot p ∉ (HandleDiagnostic c d).2 := by
  rcases HandleDiagnostic_log_cases c d with h | h | h <;> simp [h]

/-! ## The invariant holds in every reachable state -/

theorem Inv_init (env : Env) (ex : ParallelExecutor) : Inv env ex (execInit ex) where
  i_eq := by simp [execInit, SIZE_MOD]
  warnings_eq := by simp [execInit, SIZE_MOD]
  errors_eq := by simp [execInit, SIZE_MOD]
  tasks_ok := by simp [execInit]
  total_eq := rfl
  jobs_eq := by simp [execInit, Phase.rest, List.enum]
  summarized_finished := by simp [execInit]
  progress_total := by simp [execInit]
  summary_eq := by simp [execInit, summaryOf]
  failures_eq := by simp [execInit]

theorem summaryOf_eq_nil (env : Env) (s : ExecState) (h : s.phase ≠ Phase.summarized) :
    summaryOf env s = [] := by
  unfold summaryOf
  split
  · next hp => exact absurd hp h
  · rfl

/-- Any action of a task keeps the invariant. -/
theorem Inv_update (env : Env) (ex : ParallelExecutor) (s : ExecState) (hinv : Inv env ex s)
    (k : Nat) (t : Task) (ht : s.tasks[k]? = some t) (pc' : TaskPc)
    (i' w' e' a b c : Nat) (out : List LogCall)
    (hnf : t.pc ≠ TaskPc.finished)
    (hi : i' = addSize s.i a) (ha : startedOne (t.at pc') = startedOne t + a)
    (hw : w' = addSize s.totalWarnings b)
    (hb : warningsAdded env (t.at pc') = warningsAdded env t + b)
    (he : e' = addSize s.totalErrors c)
    (hc : errorsAdded env (t.at pc') = errorsAdded env t + c)
    (hok : TaskOk env (t.at pc'))
    (hprog : ∀ n tot p, LogCall.progress n tot p ∈ out → tot = s.totalNumFiles)
    (hsum : out.filter LogCall.isSummary = [])
    (hfail : ∀ p, failureLogged env p (t.at pc') =
      failureLogged env p t + out.count (LogCall.parseFailure p)) :
    Inv env ex { s with
      i := i', totalWarnings := w', totalErrors := e',
      tasks := s.tasks.set k (t.at pc'), log := s.log ++ out } := by
  have hmem : t ∈ s.tasks := mem_of_getElem?_eq _ _ _ ht
  have hns : s.phase ≠ Phase.summarized := fun h => hnf (hinv.summarized_finished h t hmem)
  constructor
  · show i' = ((s.tasks.set k (t.at pc')).map startedOne).sum % SIZE_MOD
    have h1 := sum_map_set startedOne s.tasks k t (t.at pc') ht
    have h0 := hinv.i_eq
    simp only [addSize, SIZE_MOD] at *
    omega
  · show w' = ((s.tasks.set k (t.at pc')).map (warningsAdded env)).sum % SIZE_MOD
    have h1 := sum_map_set (warningsAdded env) s.tasks k t (t.at pc') ht
    have h0 := hinv.warnings_eq
    simp only [addSize, SIZE_MOD] at *
    omega
  · show e' = ((s.tasks.set k (t.at pc')).map (errorsAdded env)).sum % SIZE_MOD
    have h1 := sum_map_set (errorsAdded env) s.tasks k t (t.at pc') ht
    have h0 := hinv.errors_eq
    simp only [addSize, SIZE_MOD] at *
    omega
  · intro x hx
    rcases mem_set_cases _ _ _ _ hx with h | h
    · rw [h]
      exact hok
    · exact hinv.tasks_ok x h
  · exact hinv.total_eq
  · show (s.tasks.set k (t.at pc')).map (fun t => (t.idx, t.path)) ++
        List.enumFrom (s.tasks.set k (t.at pc')).length s.phase.rest = (allFilesInCmpdb ex).enum
    rw [map_set_same (fun t : Task => (t.idx, t.path)) s.tasks k t (t.at pc') ht rfl,
      List.length_set]
    exact hinv.jobs_eq
  · intro h
    exact absurd h hns
  · intro n tot p hp
    rcases List.mem_append.mp hp with h | h
    · exact hinv.progress_total n tot p h
    · rw [hprog n tot p h]
      exact hinv.total_eq
  · have h3 := summaryOf_eq_nil env { s with
      i := i', totalWarnings := w', totalErrors := e',
      tasks := s.tasks.set k (t.at pc'), log := s.log ++ out } hns
    rw [h3]
    show (s.log ++ out).filter LogCall.isSummary = []
    rw [List.filter_append, hinv.summary_eq, hsum, summaryOf_eq_nil env s hns]
    rfl
  · intro p
    show (s.log ++ out).count (LogCall.parseFailure p) =
      ((s.tasks.set k (t.at pc')).map (failureLogged env p)).sum
    have h1 := sum_map_set (failureLogged env p) s.tasks k t (t.at pc') ht
    have h0 := hinv.failures_eq p
    have h2 := hfail p
    rw [List.count_append]
    omega

theorem addSize_zero (x y : Nat) (h : x = y % SIZE_MOD) : x = addSize x 0 := by
  simp only [addSize, SIZE_MOD] at *
  omega

theorem TaskOk_of_mem (env : Env) (ex : ParallelExecutor) (s : ExecState) (hinv : Inv env ex s)
    (k : Nat) (t : Task) (ht : s.tasks[k]? = some t) : TaskOk env t :=
  hinv.tasks_ok t (mem_of_getElem?_eq _ _ _ ht)

theorem Inv_step (env : Env) (ex : ParallelExecutor) (s s' : ExecState)
    (hinv : Inv env ex s) (hstep : Step env s s') : Inv env ex s' := by
  cases hstep with
  | submit file rest hphase =>
      constructor
      · simpa [startedOne, TaskPc.isStarted] using hinv.i_eq
      · simpa [warningsAdded] using hinv.warnings_eq
      · simpa [errorsAdded] using hinv.errors_eq
      · intro x hx
        rcases List.mem_append.mp hx with h | h
        · exact hinv.tasks_ok x h
        · simp only [List.mem_singleton] at h
          rw [h]
          trivial
      · exact hinv.total_eq
      · have h0 := hinv.jobs_eq
        rw [hphase] at h0
        simpa [Phase.rest, List.enumFrom_cons] using h0
      · intro h
        cases h
      · exact hinv.progress_total
      · have h0 := hinv.summary_eq
        rw [summaryOf_eq_nil env s (by rw [hphase]; simp)] at h0
        exact h0
      · intro p
        simpa [failureLogged, TaskPc.isReturned] using hinv.failures_eq p
  | endLoop hphase =>
      constructor
      · exact hinv.i_eq
      · exact hinv.warnings_eq
      · exact hinv.errors_eq
      · exact hinv.tasks_ok
      · exact hinv.total_eq
      · have h0 := hinv.jobs_eq
        rw [hphase] at h0
        simpa [Phase.rest] using h0
      · intro h
        cases h
      · exact hinv.progress_total
      · have h0 := hinv.summary_eq
        rw [summaryOf_eq_nil env s (by rw [hphase]; simp)] at h0
        exact h0
      · exact hinv.failures_eq
  | summarize hphase hall =>
      constructor
      · exact hinv.i_eq
      · exact hinv.warnings_eq
      · exact hinv.errors_eq
      · exact hinv.tasks_ok
      · exact hinv.total_eq
      · have h0 := hinv.jobs_eq
        rw [hphase] at h0
        simpa [Phase.rest] using h0
      · intro _ t ht
        have h1 := List.all_eq_true.mp hall t ht
        cases hpc : t.pc <;> simp_all [TaskPc.isFinished]
      · intro n tot p hp
        rcases List.mem_append.mp hp with h | h
        · exact hinv.progress_total n tot p h
        · exact absurd h (summary_no_progress _ _ _ _ _ _)
      · have h0 := hinv.summary_eq
        rw [summaryOf_eq_nil env s (by rw [hphase]; simp)] at h0
        show (s.log ++ summary env.logLevel s.totalErrors s.totalWarnings).filter
          LogCall.isSummary = summary env.logLevel s.totalErrors s.totalWarnings
        rw [List.filter_append, h0, summary_filter_isSummary]
        rfl
      · intro p
        show (s.log ++ summary env.logLevel s.totalErrors s.totalWarnings).count
          (LogCall.parseFailure p) = (s.tasks.map (failureLogged env p)).sum
        rw [List.count_append, summary_count_parseFailure, hinv.failures_eq p]
        rfl
  | start k t ht hpc hpool =>
      exact Inv_update env ex s hinv k t ht
        (TaskPc.running (MyDiagnosticConsumer.new t.path) (env.toolRun t.idx t.path).diags)
        (addSize s.i 1) s.totalWarnings s.totalErrors 1 0 0
        [LogCall.progress (addSize s.i 1) s.totalNumFiles t.path]
        (by rw [hpc]; simp)
        rfl
        (by simp [startedOne, Task.at, hpc, TaskPc.isStarted])
        (addSize_zero _ _ hinv.warnings_eq)
        (by simp [warningsAdded, Task.at, hpc])
        (addSize_zero _ _ hinv.errors_eq)
        (by simp [errorsAdded, Task.at, hpc])
        rfl
        (by
          intro n tot p h
          simp only [List.mem_singleton, LogCall.progress.injEq] at h
          exact h.2.1)
        (by simp [LogCall.isSummary])
        (by intro p; simp [failureLogged, Task.at, hpc, TaskPc.isReturned])
  | diag k t c d pending ht hpc =>
      have hok := TaskOk_of_mem env ex s hinv k t ht
      simp only [TaskOk, hpc] at hok
      exact Inv_update env ex s hinv k t ht
        (TaskPc.running (HandleDiagnostic c d).1 pending)
        s.i s.totalWarnings s.totalErrors 0 0 0 (HandleDiagnostic c d).2
        (by rw [hpc]; simp)
        (addSize_zero _ _ hinv.i_eq)
        (by simp [startedOne, Task.at, hpc, TaskPc.isStarted])
        (addSize_zero _ _ hinv.warnings_eq)
        (by simp [warningsAdded, Task.at, hpc])
        (addSize_zero _ _ hinv.errors_eq)
        (by simp [errorsAdded, Task.at, hpc])
        hok
        (fun n tot p h => absurd h (HandleDiagnostic_no_progress c d n tot p))
        (HandleDiagnostic_filter_isSummary c d)
        (by
          intro p
          rw [HandleDiagnostic_count_parseFailure]
          simp [failureLogged, Task.at, hpc, TaskPc.isReturned])
  | toolReturn k t c ht hpc =>
      have hok := TaskOk_of_mem env ex s hinv k t ht
      simp only [TaskOk, hpc] at hok
      exact Inv_update env ex s hinv k t ht (TaskPc.returned c)
        s.i s.totalWarnings s.totalErrors 0 0 0
        (if (env.toolRun t.idx t.path).ret ≠ 0 then [LogCall.parseFailure t.path] else [])
        (by rw [hpc]; simp)
        (addSize_zero _ _ hinv.i_eq)
        (by simp [startedOne, Task.at, hpc, TaskPc.isStarted])
        (addSize_zero _ _ hinv.warnings_eq)
        (by simp [warningsAdded, Task.at, hpc])
        (addSize_zero _ _ hinv.errors_eq)
        (by simp [errorsAdded, Task.at, hpc])
        hok
        (by
          intro n tot p h
          split at h <;> simp at h)
        (by split <;> simp [LogCall.isSummary])
        (by
          intro p
          by_cases hr : (env.toolRun t.idx t.path).ret = 0
          · simp [failureLogged, Task.at, hpc, TaskPc.isReturned, hr]
          · by_cases hp : t.path = p
            · subst hp
              simp [failureLogged, Task.at, hpc, TaskPc.isReturned, hr]
            · simp [failureLogged, Task.at, hpc, TaskPc.isReturned, hr, hp,
                List.count_singleton])
  | addWarnings k t c ht hpc =>
      have hok := TaskOk_of_mem env ex s hinv k t ht
      simp only [TaskOk, hpc] at hok
      have h := Inv_update env ex s hinv k t ht (TaskPc.addedWarnings c)
        s.i (addSize s.totalWarnings c.numWarnings) s.totalErrors 0 c.numWarnings 0 []
        (by rw [hpc]; simp)
        (addSize_zero _ _ hinv.i_eq)
        (by simp [startedOne, Task.at, hpc, TaskPc.isStarted])
        rfl
        (by
          rw [hok]
          simp [warningsAdded, Task.at, hpc, finalConsumer])
        (addSize_zero _ _ hinv.errors_eq)
        (by simp [errorsAdded, Task.at, hpc])
        hok
        (by simp)
        (by simp)
        (by intro p; simp [failureLogged, Task.at, hpc, TaskPc.isReturned])
      rw [List.append_nil] at h
      exact h
  | addErrors k t c ht hpc =>
      have hok := TaskOk_of_mem env ex s hinv k t ht
      simp only [TaskOk, hpc] at hok
      have h := Inv_update env ex s hinv k t ht TaskPc.finished
        s.i s.totalWarnings (addSize s.totalErrors c.numErrors) 0 0 c.numErrors []
        (by rw [hpc]; simp)
        (addSize_zero _ _ hinv.i_eq)
        (by simp [startedOne, Task.at, hpc, TaskPc.isStarted])
        (addSize_zero _ _ hinv.warnings_eq)
        (by simp [warningsAdded, Task.at, hpc, finalConsumer])
        rfl
        (by
          rw [hok]
          simp [errorsAdded, Task.at, hpc, finalConsumer])
        trivial
        (by simp)
        (by simp)
        (by intro p; simp [failureLogged, Task.at, hpc, TaskPc.isReturned])
      rw [List.append_nil] at h
      exact h

theorem Inv_runEvents (env : Env) (ex : ParallelExecutor) (es : List Event) (s s' : ExecState)
    (hinv : Inv env ex s) (h : runEvents env s es = some s') : Inv env ex s' := by
  induction es generalizing s with
  | nil =>
      simp only [runEvents, Option.some.injEq] at h
      rw [← h]
      exact hinv
  | cons e es ih =>
      simp only [runEvents] at h
      split at h
      · cases h
      · next s1 hs1 => exact ih s1 (Inv_step env ex s s1 hinv (step_sound env s s1 e hs1)) h

theorem Inv_execute (env : Env) (ex : ParallelExecutor) (schedule : List Event) (s : ExecState)
    (h : execute env ex schedule = some s) : Inv env ex s :=
  Inv_runEvents env ex schedule (execInit ex) s (Inv_init env ex) h

theorem runEvents_append (env : Env) (es es' : List Event) (s : ExecState) :
    runEvents env s (es ++ es') =
      match runEvents env s es with
      | none => none
      | some s1 => runEvents env s1 es' := by
  induction es generalizing s with
  | nil => simp [runEvents]
  | cons e es ih =>
      simp only [List.cons_append, runEvents]
      split
      · rfl
      · next s1 _ => exact ih s1

/-! ## Every schedule ends, and `execute` can always go on until it has returned -/

theorem stepsLeft_update (env : Env) (s : ExecState) (k : Nat) (t : Task)
    (ht : s.tasks[k]? = some t) (pc' : TaskPc) (i' w' e' : Nat) (log' : List LogCall)
    (hm : taskMeasure env t = taskMeasure env (t.at pc') + 1) :
    stepsLeft env s = stepsLeft env { s with
      i := i', totalWarnings := w', totalErrors := e',
      tasks := s.tasks.set k (t.at pc'), log := log' } + 1 := by
  have h1 := sum_map_set (taskMeasure env) s.tasks k t (t.at pc') ht
  simp only [stepsLeft, List.length_set]
  omega

theorem stepsLeft_step (env : Env) (s s' : ExecState) (hstep : Step env s s') :
    stepsLeft env s = stepsLeft env s' + 1 := by
  cases hstep with
  | submit file rest hphase =>
      simp only [stepsLeft, hphase, phaseMeasure, restMeasure, List.length_append,
        List.length_singleton, List.map_append, List.sum_append, List.map_cons, List.map_nil,
        List.sum_cons, List.sum_nil, taskMeasure]
      omega
  | endLoop hphase => simp [stepsLeft, hphase, phaseMeasure, restMeasure]; omega
  | summarize hphase hall => simp [stepsLeft, hphase, phaseMeasure]; omega
  | start k t ht hpc hpool =>
      exact stepsLeft_update env s k t ht _ _ _ _ _ (by simp [taskMeasure, Task.at, hpc])
  | diag k t c d pending ht hpc =>
      exact stepsLeft_update env s k t ht _ _ _ _ _ (by simp [taskMeasure, Task.at, hpc])
  | toolReturn k t c ht hpc =>
      exact stepsLeft_update env s k t ht _ _ _ _ _ (by simp [taskMeasure, Task.at, hpc])
  | addWarnings k t c ht hpc =>
      exact stepsLeft_update env s k t ht _ _ _ _ _ (by simp [taskMeasure, Task.at, hpc])
  | addErrors k t c ht hpc =>
      exact stepsLeft_update env s k t ht _ _ _ _ _ (by simp [taskMeasure, Task.at, hpc])

theorem stepsLeft_runEvents (env : Env) (es : List Event) (s s' : ExecState)
    (h : runEvents env s es = some s') : stepsLeft env s = stepsLeft env s' + es.length := by
  induction es generalizing s with
  | nil =>
      simp only [runEvents, Option.some.injEq] at h
      simp [h]
  | cons e es ih =>
      simp only [runEvents] at h
      split at h
      · cases h
      · next s1 hs1 =>
          have h1 := stepsLeft_step env s s1 (step_sound env s s1 e hs1)
          have h2 := ih s1 h
          simp only [List.length_cons]
          omega

theorem activeCount_eq_zero (tasks : List Task)
    (h : ¬ ∃ t ∈ tasks, t.pc.isActive = true) : activeCount tasks = 0 := by
  unfold activeCount
  rw [List.length_eq_zero, List.filter_eq_nil_iff]
  intro t ht hact
  exact h ⟨t, ht, hact⟩

theorem step_of_active (env : Env) (s : ExecState) (k : Nat) (t : Task)
    (ht : s.tasks[k]? = some t) (hact : t.pc.isActive = true) : ∃ s', Step env s s' := by
  cases hpc : t.pc with
  | queued => simp [hpc, TaskPc.isActive, TaskPc.isStarted] at hact
  | running c pending =>
      cases pending with
      | nil => exact ⟨_, Step.toolReturn s k t c ht hpc⟩
      | cons d pending => exact ⟨_, Step.diag s k t c d pending ht hpc⟩
  | returned c => exact ⟨_, Step.addWarnings s k t c ht hpc⟩
  | addedWarnings c => exact ⟨_, Step.addErrors s k t c ht hpc⟩
  | finished => simp [hpc, TaskPc.isActive, TaskPc.isFinished] at hact

/-- While `execute` has not returned, some thread can act (the pool has at
least one worker). -/
theorem step_exists (env : Env) (s : ExecState) (hpool : 1 ≤ env.poolSize)
    (hphase : s.phase ≠ Phase.summarized) : ∃ s', Step env s s' := by
  cases hp : s.phase with
  | dispatching rest =>
      cases rest with
      | nil => exact ⟨_, Step.endLoop s hp⟩
      | cons file rest => exact ⟨_, Step.submit s file rest hp⟩
  | draining =>
      by_cases hall : s.tasks.all (fun t => t.pc.isFinished) = true
      · exact ⟨_, Step.summarize s hp hall⟩
      · by_cases hact : ∃ t ∈ s.tasks, t.pc.isActive = true
        · obtain ⟨t, ht, ha⟩ := hact
          obtain ⟨k, hk⟩ := getElem?_of_mem _ _ ht
          exact step_of_active env s k t hk ha
        · have h0 := activeCount_eq_zero s.tasks hact
          simp only [List.all_eq_true, not_forall] at hall
          obtain ⟨t, ht, hnf⟩ := hall
          obtain ⟨k, hk⟩ := getElem?_of_mem _ _ ht
          have hq : t.pc = TaskPc.queued := by
            cases hpc : t.pc with
            | queued => rfl
            | running c pending =>
                exact absurd ⟨t, ht, by simp [hpc, TaskPc.isActive, TaskPc.isStarted,
                  TaskPc.isFinished]⟩ hact
            | returned c =>
                exact absurd ⟨t, ht, by simp [hpc, TaskPc.isActive, TaskPc.isStarted,
                  TaskPc.isFinished]⟩ hact
            | addedWarnings c =>
                exact absurd ⟨t, ht, by simp [hpc, TaskPc.isActive, TaskPc.isStarted,
                  TaskPc.isFinished]⟩ hact
            | finished => simp [hpc, TaskPc.isFinished] at hnf
          exact ⟨_, Step.start s k t hk hq (by omega)⟩
  | summarized => exact absurd hp hphase

/-- From every state some schedule leads to the return of `execute`. -/
theorem runEvents_terminates (env : Env) (hpool : 1 ≤ env.poolSize) (n : Nat) :
    ∀ s : ExecState, stepsLeft env s ≤ n →
      ∃ es s', runEvents env s es = some s' ∧ s'.phase = Phase.summarized := by
  induction n with
  | zero =>
      intro s hs
      by_cases hphase : s.phase = Phase.summarized
      · exact ⟨[], s, rfl, hphase⟩
      · obtain ⟨s1, h1⟩ := step_exists env s hpool hphase
        have := stepsLeft_step env s s1 h1
        omega
  | succ n ih =>
      intro s hs
      by_cases hphase : s.phase = Phase.summarized
      · exact ⟨[], s, rfl, hphase⟩
      · obtain ⟨s1, h1⟩ := step_exists env s hpool hphase
        have hm := stepsLeft_step env s s1 h1
        obtain ⟨e, he⟩ := step_complete env s s1 h1
        obtain ⟨es, s', hrun, hfin⟩ := ih s1 (by omega)
        exact ⟨e :: es, s', by simp [runEvents, he, hrun], hfin⟩

/-! ## What the invariant gives -/

theorem allFilesInCmpdb_no_limit (ex : ParallelExecutor)
    (h : ex.debugLimitNumIndexedFiles = 0) : allFilesInCmpdb ex = ex.allFiles := by
  simp [allFilesInCmpdb, h]

theorem allFilesInCmpdb_limit (ex : ParallelExecutor)
    (hL : 1 ≤ ex.debugLimitNumIndexedFiles)
    (hN : ex.debugLimitNumIndexedFiles ≤ ex.allFiles.length) :
    allFilesInCmpdb ex = ex.allFiles.take ex.debugLimitNumIndexedFiles := by
  have h0 : ex.debugLimitNumIndexedFiles > 0 := hL
  simp [allFilesInCmpdb, h0, resize, Nat.sub_eq_zero_of_le hN]

theorem totalNumFiles_limit (ex : ParallelExecutor)
    (hL : 1 ≤ ex.debugLimitNumIndexedFiles) :
    totalNumFiles ex = toString ex.debugLimitNumIndexedFiles := by
  have h0 : ex.debugLimitNumIndexedFiles > 0 := hL
  simp [totalNumFiles, h0]

/-- The paths of the tasks submitted so far, then the files still to submit,
are the job list in its order. -/
theorem Inv_paths (env : Env) (ex : ParallelExecutor) (s : ExecState) (hinv : Inv env ex s) :
    s.tasks.map (fun t => t.path) ++ s.phase.rest = allFilesInCmpdb ex := by
  have h := congrArg (List.map Prod.snd) hinv.jobs_eq
  simpa [List.enum_map_snd, List.enumFrom_map_snd, Function.comp_def] using h

theorem Inv_length_le (env : Env) (ex : ParallelExecutor) (s : ExecState)
    (hinv : Inv env ex s) : s.tasks.length ≤ (allFilesInCmpdb ex).length := by
  have h := congrArg List.length (Inv_paths env ex s hinv)
  simp only [List.length_append, List.length_map] at h
  omega

/-- Every task is the job at its position in the job list. -/
theorem Inv_task_job (env : Env) (ex : ParallelExecutor) (s : ExecState) (hinv : Inv env ex s)
    (t : Task) (ht : t ∈ s.tasks) : (allFilesInCmpdb ex)[t.idx]? = some t.path := by
  have h1 : (t.idx, t.path) ∈ s.tasks.map (fun t => (t.idx, t.path)) :=
    List.mem_map.mpr ⟨t, ht, rfl⟩
  have h2 : (t.idx, t.path) ∈ (allFilesInCmpdb ex).enum := by
    rw [← hinv.jobs_eq]
    exact List.mem_append_left _ h1
  exact List.mk_mem_enum_iff_getElem?.mp h2

theorem Drained_rest (s : ExecState) (hd : Drained s) : s.phase.rest = [] := by
  rcases hd.1 with h | h <;> simp [h, Phase.rest]

theorem Drained_jobs (env : Env) (ex : ParallelExecutor) (s : ExecState) (hinv : Inv env ex s)
    (hd : Drained s) : s.tasks.map (fun t => (t.idx, t.path)) = (allFilesInCmpdb ex).enum := by
  have h := hinv.jobs_eq
  rw [Drained_rest s hd] at h
  simpa using h

theorem Drained_paths (env : Env) (ex : ParallelExecutor) (s : ExecState) (hinv : Inv env ex s)
    (hd : Drained s) : s.tasks.map (fun t => t.path) = allFilesInCmpdb ex := by
  have h := Inv_paths env ex s hinv
  rw [Drained_rest s hd] at h
  simpa using h

theorem Drained_length (env : Env) (ex : ParallelExecutor) (s : ExecState)
    (hinv : Inv env ex s) (hd : Drained s) : s.tasks.length = (allFilesInCmpdb ex).length := by
  have h := congrArg List.length (Drained_paths env ex s hinv hd)
  simpa using h

theorem Drained_consumers (env : Env) (ex : ParallelExecutor) (s : ExecState)
    (hinv : Inv env ex s) (hd : Drained s) :
    s.tasks.map (finalConsumer env) = jobConsumers env (allFilesInCmpdb ex) := by
  unfold jobConsumers
  rw [← Drained_jobs env ex s hinv hd, List.map_map]
  rfl

theorem Drained_i (env : Env) (ex : ParallelExecutor) (s : ExecState) (hinv : Inv env ex s)
    (hd : Drained s) : s.i = (allFilesInCmpdb ex).length % SIZE_MOD := by
  have h1 : s.tasks.map startedOne = s.tasks.map (fun _ => 1) := by
    apply List.map_congr_left
    intro t ht
    simp [startedOne, hd.2 t ht, TaskPc.isStarted]
  rw [hinv.i_eq, h1, ← Drained_length env ex s hinv hd]
  simp

theorem Drained_totalWarnings (env : Env) (ex : ParallelExecutor) (s : ExecState)
    (hinv : Inv env ex s) (hd : Drained s) :
    s.totalWarnings =
      ((jobConsumers env (allFilesInCmpdb ex)).map (fun c => c.numWarnings)).sum % SIZE_MOD := by
  have h1 : s.tasks.map (warningsAdded env) =
      (s.tasks.map (finalConsumer env)).map (fun c => c.numWarnings) := by
    rw [List.map_map]
    apply List.map_congr_left
    intro t ht
    simp [warningsAdded, hd.2 t ht]
  rw [hinv.warnings_eq, h1, Drained_consumers env ex s hinv hd]

theorem Drained_totalErrors (env : Env) (ex : ParallelExecutor) (s : ExecState)
    (hinv : Inv env ex s) (hd : Drained s) :
    s.totalErrors =
      ((jobConsumers env (allFilesInCmpdb ex)).map (fun c => c.numErrors)).sum % SIZE_MOD := by
  have h1 : s.tasks.map (errorsAdded env) =
      (s.tasks.map (finalConsumer env)).map (fun c => c.numErrors) := by
    rw [List.map_map]
    apply List.map_congr_left
    intro t ht
    simp [errorsAdded, hd.2 t ht]
  rw [hinv.errors_eq, h1, Drained_consumers env ex s hinv hd]

theorem Drained_of_summarized (env : Env) (ex : ParallelExecutor) (s : ExecState)
    (hinv : Inv env ex s) (h : s.phase = Phase.summarized) : Drained s :=
  ⟨Or.inr h, hinv.summarized_finished h⟩

/-- Some schedule takes `execute` to its return, for a pool with a worker. -/
theorem execute_terminates (env : Env) (ex : ParallelExecutor) (hpool : 1 ≤ env.poolSize) :
    ∃ schedule s, execute env ex schedule = some s ∧ s.phase = Phase.summarized ∧ Drained s := by
  obtain ⟨es, s, hrun, hfin⟩ :=
    runEvents_terminates env hpool (stepsLeft env (execInit ex)) (execInit ex) (Nat.le_refl _)
  exact ⟨es, s, hrun, hfin, Drained_of_summarized env ex s (Inv_execute env ex es s hrun) hfin⟩

theorem counts_split (tasks : List Task) :
    startedCount tasks = finishedCount tasks + activeCount tasks := by
  unfold startedCount finishedCount activeCount
  rw [length_filter_eq_sum, length_filter_eq_sum, length_filter_eq_sum]
  induction tasks with
  | nil => rfl
  | cons t ts ih =>
      have hp : (if t.pc.isStarted = true then 1 else 0) =
          (if t.pc.isFinished = true then 1 else 0) +
            (if t.pc.isActive = true then 1 else 0) := by
        cases t.pc <;> simp [TaskPc.isStarted, TaskPc.isFinished, TaskPc.isActive]
      simp only [List.map_cons, List.sum_cons]
      omega

theorem Drained_finishedCount (s : ExecState) (hd : Drained s) :
    finishedCount s.tasks = s.tasks.length := by
  unfold finishedCount
  rw [List.filter_eq_self.mpr]
  intro t ht
  simp [hd.2 t ht, TaskPc.isFinished]

/-! ## Failure of the tool for a job -/

theorem summary_filter_not_parseFailure (logLevel : LogLevel) (te tw : Nat) :
    (summary logLevel te tw).filter (fun c => !c.isParseFailure) = summary logLevel te tw := by
  rcases summary_cases logLevel te tw with h | ⟨msg, h⟩ | h <;>
    simp [h, LogCall.isParseFailure]

theorem HandleDiagnostic_filter_not_parseFailure (c : MyDiagnosticConsumer) (d : Diagnostic) :
    (HandleDiagnostic c d).2.filter (fun c => !c.isParseFailure) = (HandleDiagnostic c d).2 := by
  rcases HandleDiagnostic_log_cases c d with h | h | h <;> simp [h, LogCall.isParseFailure]

theorem step_allSucceed (env : Env) (s : ExecState) (e : Event) :
    step (allSucceed env) (withoutFailureLines s) e =
      (step env s e).map withoutFailureLines := by
  cases e with
  | main =>
      simp only [step, stepMain]
      cases hp : s.phase with
      | dispatching rest =>
          cases rest with
          | nil => simp [withoutFailureLines, hp]
          | cons file rest => simp [withoutFailureLines, hp]
      | draining =>
          by_cases hall : s.tasks.all (fun t => t.pc.isFinished) = true
          · simp [withoutFailureLines, hp, hall, allSucceed, List.filter_append,
              summary_filter_not_parseFailure]
          · simp [withoutFailureLines, hp, hall]
      | summarized => simp [withoutFailureLines, hp]
  | task k =>
      simp only [step, stepTask]
      have htasks : (withoutFailureLines s).tasks = s.tasks := rfl
      rw [htasks]
      cases ht : s.tasks[k]? with
      | none => simp
      | some t =>
          cases hpc : t.pc with
          | queued =>
              by_cases hpool : activeCount s.tasks < env.poolSize
              · simp [withoutFailureLines, hpc, hpool, allSucceed, List.filter_append,
                  LogCall.isParseFailure]
              · simp [withoutFailureLines, hpc, hpool, allSucceed]
          | running c pending =>
              cases pending with
              | nil =>
                  by_cases hr : (env.toolRun t.idx t.path).ret = 0
                  · simp [withoutFailureLines, hpc, allSucceed, List.filter_append, hr]
                  · simp [withoutFailureLines, hpc, allSucceed, List.filter_append, hr,
                      LogCall.isParseFailure]
              | cons d pending =>
                  simp [withoutFailureLines, hpc, List.filter_append,
                    HandleDiagnostic_filter_not_parseFailure]
          | returned c => simp [withoutFailureLines, hpc]
          | addedWarnings c => simp [withoutFailureLines, hpc]
          | finished => simp [hpc]

theorem runEvents_allSucceed (env : Env) (es : List Event) (s : ExecState) :
    runEvents (allSucceed env) (withoutFailureLines s) es =
      (runEvents env s es).map withoutFailureLines := by
  induction es generalizing s with
  | nil => simp [runEvents]
  | cons e es ih =>
      simp only [runEvents, step_allSucceed]
      cases h : step env s e with
      | none => simp
      | some s1 => simpa using ih s1

theorem execute_allSucceed (env : Env) (ex : ParallelExecutor) (schedule : List Event) :
    execute (allSucceed env) ex schedule =
      (execute env ex schedule).map withoutFailureLines :=
  runEvents_allSucceed env schedule (execInit ex)

/-- The jobs with the path `p` for which `Tool.run` returns non-zero. -/
theorem Drained_failures (env : Env) (ex : ParallelExecutor) (s : ExecState)
    (hinv : Inv env ex s) (hd : Drained s) (p : String) :
    s.log.count (LogCall.parseFailure p) =
      ((allFilesInCmpdb ex).enum.filter
        (fun kp => decide (kp.2 = p ∧ (env.toolRun kp.1 kp.2).ret ≠ 0))).length := by
  have h1 : s.tasks.map (failureLogged env p) =
      (s.tasks.map (fun t => (t.idx, t.path))).map
        (fun kp => if decide (kp.2 = p ∧ (env.toolRun kp.1 kp.2).ret ≠ 0) = true
          then 1 else 0) := by
    rw [List.map_map]
    apply List.map_congr_left
    intro t ht
    simp [failureLogged, hd.2 t ht, TaskPc.isReturned]
  rw [hinv.failures_eq p, h1, Drained_jobs env ex s hinv hd, length_filter_eq_sum]

theorem summary_eq_nil_iff (logLevel : LogLevel) (te tw : Nat) :
    summary logLevel te tw = [] ↔ te = 0 ∧ tw = 0 := by
  unfold summary
  by_cases h1 : te > 0
  · simp [h1]
    omega
  · by_cases h2 : tw > 0
    · simp [h1, h2]
      omega
    · simp [h1, h2]
      omega

theorem Inv_summary_filter (env : Env) (ex : ParallelExecutor) (s : ExecState)
    (hinv : Inv env ex s) :
    (s.phase = Phase.summarized →
      s.log.filter LogCall.isSummary = summary env.logLevel s.totalErrors s.totalWarnings) ∧
    (s.phase ≠ Phase.summarized → s.log.filter LogCall.isSummary = []) := by
  constructor
  · intro h
    rw [hinv.summary_eq]
    simp [summaryOf, h]
  · intro h
    rw [hinv.summary_eq]
    exact summaryOf_eq_nil env s h

/-- No schedule is longer than the number of actions `execute` has to take. -/
theorem execute_schedule_bounded (env : Env) (ex : ParallelExecutor) (schedule : List Event)
    (s : ExecState) (h : execute env ex schedule = some s) :
    schedule.length ≤ stepsLeft env (execInit ex) := by
  have h1 := stepsLeft_runEvents env schedule (execInit ex) s h
  omega

/-- Every run of `execute` can go on until `execute` has returned, for a pool
with a worker. -/
theorem execute_can_complete (env : Env) (ex : ParallelExecutor) (hpool : 1 ≤ env.poolSize)
    (schedule : List Event) (s : ExecState) (h : execute env ex schedule = some s) :
    ∃ more s', execute env ex (schedule ++ more) = some s' ∧
      s'.phase = Phase.summarized ∧ Drained s' := by
  obtain ⟨more, s', hrun, hfin⟩ :=
    runEvents_terminates env hpool (stepsLeft env s) s (Nat.le_refl _)
  have hall : execute env ex (schedule ++ more) = some s' := by
    unfold execute at h ⊢
    rw [runEvents_append, h]
    exact hrun
  exact ⟨more, s', hall, hfin,
    Drained_of_summarized env ex s' (Inv_execute env ex _ s' hall) hfin⟩

/-! ## The claims about `HandleDiagnostic` -/

/-- C5: after `HandleDiagnostic` has been called on each diagnostic of a finite
sequence, starting from a freshly constructed consumer, `numErrors` is the
number of diagnostics of level Error and `numWarnings` the number of level
Warning (as `size_t` values, hence exactly so for a sequence of fewer than
`2 ^ 64` diagnostics); a diagnostic of any other level leaves the consumer as
it is, an Error leaves `numWarnings` and a Warning leaves `numErrors`. -/
theorem HandleDiagnostic_counts_by_level (fileName : String) (ds : List Diagnostic) :
    (handleAll (MyDiagnosticConsumer.new fileName) ds).numErrors =
        countLevel Level.Error ds % SIZE_MOD ∧
    (handleAll (MyDiagnosticConsumer.new fileName) ds).numWarnings =
        countLevel Level.Warning ds % SIZE_MOD ∧
    (ds.length < SIZE_MOD →
      (handleAll (MyDiagnosticConsumer.new fileName) ds).numErrors =
          countLevel Level.Error ds ∧
      (handleAll (MyDiagnosticConsumer.new fileName) ds).numWarnings =
          countLevel Level.Warning ds) ∧
    (∀ (c : MyDiagnosticConsumer) (d : Diagnostic),
      d.DiagLevel ≠ Level.Error → d.DiagLevel ≠ Level.Warning →
        (HandleDiagnostic c d).1 = c) ∧
    (∀ (c : MyDiagnosticConsumer) (d : Diagnostic),
      d.DiagLevel = Level.Error → (HandleDiagnostic c d).1.numWarnings = c.numWarnings) ∧
    (∀ (c : MyDiagnosticConsumer) (d : Diagnostic),
      d.DiagLevel = Level.Warning → (HandleDiagnostic c d).1.numErrors = c.numErrors) := by
  refine ⟨handleAll_new_numErrors fileName ds, handleAll_new_numWarnings fileName ds,
    ?_, ?_, ?_, ?_⟩
  · intro hlen
    have hE := countLevel_le_length Level.Error ds
    have hW := countLevel_le_length Level.Warning ds
    rw [handleAll_new_numErrors, handleAll_new_numWarnings,
      Nat.mod_eq_of_lt (Nat.lt_of_le_of_lt hE hlen),
      Nat.mod_eq_of_lt (Nat.lt_of_le_of_lt hW hlen)]
    exact ⟨rfl, rfl⟩
  · intro c d hE hW
    simp [HandleDiagnostic, hE, hW]
  · intro c d hE
    rw [HandleDiagnostic_numWarnings]
    simp [hE]
  · intro c d hW
    rw [HandleDiagnostic_numErrors]
    simp [hW]

/-- C5, on the sequence Error, Warning, Note, Error, Fatal for `b.txt`: two
errors and one warning are counted. -/
theorem HandleDiagnostic_counts_by_level_witness :
    (handleAll (MyDiagnosticConsumer.new "b.txt")
        [⟨Level.Error, "e1"⟩, ⟨Level.Warning, "w1"⟩, ⟨Level.Note, "n1"⟩,
          ⟨Level.Error, "e2"⟩, ⟨Level.Fatal, "f1"⟩]).numErrors = 2 ∧
    (handleAll (MyDiagnosticConsumer.new "b.txt")
        [⟨Level.Error, "e1"⟩, ⟨Level.Warning, "w1"⟩, ⟨Level.Note, "n1"⟩,
          ⟨Level.Error, "e2"⟩, ⟨Level.Fatal, "f1"⟩]).numWarnings = 1 ∧
    (HandleDiagnostic (MyDiagnosticConsumer.new "b.txt") ⟨Level.Fatal, "f1"⟩).1 =
      MyDiagnosticConsumer.new "b.txt" :=
  ⟨((HandleDiagnostic_counts_by_level "b.txt"
        [⟨Level.Error, "e1"⟩, ⟨Level.Warning, "w1"⟩, ⟨Level.Note, "n1"⟩,
          ⟨Level.Error, "e2"⟩, ⟨Level.Fatal, "f1"⟩]).2.2.1 (by decide)).1,
   ((HandleDiagnostic_counts_by_level "b.txt"
        [⟨Level.Error, "e1"⟩, ⟨Level.Warning, "w1"⟩, ⟨Level.Note, "n1"⟩,
          ⟨Level.Error, "e2"⟩, ⟨Level.Fatal, "f1"⟩]).2.2.1 (by decide)).2,
   (HandleDiagnostic_counts_by_level "b.txt" []).2.2.2.1
      (MyDiagnosticConsumer.new "b.txt") ⟨Level.Fatal, "f1"⟩ (by decide) (by decide)⟩

/-- C9 fails for a Warning: for the Warning "unused variable", whose message
does not contain "no such file or directory", `HandleDiagnostic` counts the
warning and makes no log call at all, so there is no log call at the info
level for it. -/
theorem HandleDiagnostic_warning_not_logged :
    containsText "unused variable" noSuchFile = false ∧
    (HandleDiagnostic (MyDiagnosticConsumer.new "a.cpp")
        ⟨Level.Warning, "unused variable"⟩).1.numWarnings = 1 ∧
    (HandleDiagnostic (MyDiagnosticConsumer.new "a.cpp")
        ⟨Level.Warning, "unused variable"⟩).2 = [] ∧
    ¬ ∃ line, (HandleDiagnostic (MyDiagnosticConsumer.new "a.cpp")
        ⟨Level.Warning, "unused variable"⟩).2 = [line] ∧ line.level = LogLevel.info := by
  refine ⟨by decide, by decide, by decide, ?_⟩
  rintro ⟨line, h, _⟩
  have h0 : (HandleDiagnostic (MyDiagnosticConsumer.new "a.cpp")
      ⟨Level.Warning, "unused variable"⟩).2 = [] := by decide
  rw [h0] at h
  cases h

/-- C9 as amended. For a diagnostic of level Error whose message does not
contain "no such file or directory", `HandleDiagnostic` counts it in
`numErrors` (and leaves `numWarnings`) and makes exactly one log call, at the
info level, whose text is "Encountered error while processing ", the file
name, ": " and `message.c_str()` (the message itself when it has no NUL
character), and which a logger writes out exactly when its level is info or
lower. For a diagnostic of level Warning, whatever its message,
`HandleDiagnostic` counts it in `numWarnings` (and leaves `numErrors`) and
makes no log call. -/
theorem HandleDiagnostic_other_diagnostics (c : MyDiagnosticConsumer) (d : Diagnostic) :
    (d.DiagLevel = Level.Error → ¬ noSuchFile.data <:+: d.message.data →
      (HandleDiagnostic c d).1.numErrors = addSize c.numErrors 1 ∧
      (c.numErrors + 1 < SIZE_MOD → (HandleDiagnostic c d).1.numErrors = c.numErrors + 1) ∧
      (HandleDiagnostic c d).1.numWarnings = c.numWarnings ∧
      ∃ line, (HandleDiagnostic c d).2 = [line] ∧ line.level = LogLevel.info ∧
        line.text =
          "Encountered error while processing " ++ c.fileName ++ ": " ++ c_str d.message ∧
        (Char.ofNat 0 ∉ d.message.data →
          line.text =
            "Encountered error while processing " ++ c.fileName ++ ": " ++ d.message) ∧
        ∀ threshold : LogLevel,
          line.shown threshold = true ↔ threshold.toNat ≤ LogLevel.info.toNat) ∧
    (d.DiagLevel = Level.Warning →
      (HandleDiagnostic c d).1.numWarnings = addSize c.numWarnings 1 ∧
      (c.numWarnings + 1 < SIZE_MOD →
        (HandleDiagnostic c d).1.numWarnings = c.numWarnings + 1) ∧
      (HandleDiagnostic c d).1.numErrors = c.numErrors ∧
      (HandleDiagnostic c d).2 = []) := by
  constructor
  · intro hE hM
    have hC : containsText d.message noSuchFile = false := by
      cases h : containsText d.message noSuchFile with
      | false => rfl
      | true => exact absurd ((containsText_iff _ _).mp h) hM
    refine ⟨?_, ?_, ?_, LogCall.verboseError c.fileName (c_str d.message), ?_, rfl, rfl,
      ?_, ?_⟩
    · rw [HandleDiagnostic_numErrors]
      simp [hE]
    · intro hlt
      rw [HandleDiagnostic_numErrors]
      simp only [hE, if_true, addSize]
      exact Nat.mod_eq_of_lt hlt
    · rw [HandleDiagnostic_numWarnings]
      simp [hE]
    · simp [HandleDiagnostic, hE, hC]
    · intro hnul
      simp only [LogCall.text]
      rw [c_str_eq_self d.message hnul]
    · intro threshold
      simp [LogCall.shown, LogCall.level]
  · intro hW
    refine ⟨?_, ?_, ?_, ?_⟩
    · rw [HandleDiagnostic_numWarnings]
      simp [hW]
    · intro hlt
      rw [HandleDiagnostic_numWarnings]
      simp only [hW, if_true, addSize]
      exact Nat.mod_eq_of_lt hlt
    · rw [HandleDiagnostic_numErrors]
      simp [hW]
    · simp [HandleDiagnostic, hW]

/-- C9 as amended, on the Error "unknown type name", on the Warning
"unused variable", and on a Warning whose message contains the text
"no such file or directory", for `a.cpp`. -/
theorem HandleDiagnostic_other_diagnostics_witness :
    ((HandleDiagnostic (MyDiagnosticConsumer.new "a.cpp")
        ⟨Level.Error, "unknown type name"⟩).1.numErrors = 1 ∧
      ∃ line, (HandleDiagnostic (MyDiagnosticConsumer.new "a.cpp")
          ⟨Level.Error, "unknown type name"⟩).2 = [line] ∧
        line.level = LogLevel.info ∧
        line.text = "Encountered error while processing a.cpp: unknown type name") ∧
    ((HandleDiagnostic (MyDiagnosticConsumer.new "a.cpp")
        ⟨Level.Warning, "unused variable"⟩).1.numWarnings = 1 ∧
      (HandleDiagnostic (MyDiagnosticConsumer.new "a.cpp")
        ⟨Level.Warning, "unused variable"⟩).2 = []) ∧
    ((HandleDiagnostic (MyDiagnosticConsumer.new "a.cpp")
        ⟨Level.Warning, "x.hpp: no such file or directory"⟩).1.numWarnings = 1 ∧
      (HandleDiagnostic (MyDiagnosticConsumer.new "a.cpp")
        ⟨Level.Warning, "x.hpp: no such file or directory"⟩).2 = []) := by
  have hErr := (HandleDiagnostic_other_diagnostics (MyDiagnosticConsumer.new "a.cpp")
    ⟨Level.Error, "unknown type name"⟩).1 rfl
    (fun h => absurd ((containsText_iff _ _).mpr h) (by decide))
  have hWarn := (HandleDiagnostic_other_diagnostics (MyDiagnosticConsumer.new "a.cpp")
    ⟨Level.Warning, "unused variable"⟩).2 rfl
  have hWarnText := (HandleDiagnostic_other_diagnostics (MyDiagnosticConsumer.new "a.cpp")
    ⟨Level.Warning, "x.hpp: no such file or directory"⟩).2 rfl
  obtain ⟨_, e2, _, line, l1, l2, _, l4, _⟩ := hErr
  exact ⟨⟨e2 (by decide), line, l1, l2, l4 (by decide)⟩,
    ⟨hWarn.2.1 (by decide), hWarn.2.2.2⟩,
    ⟨hWarnText.2.1 (by decide), hWarnText.2.2.2⟩⟩

/-! ## The claims about `execute` -/

/-- C1: without a debug limit, in every state in which the pool has drained,
whatever the schedule of the threads (hence whatever the order in which the
jobs complete, and for every pool size), `totalWarnings` is the sum over all
jobs of the `numWarnings` of the consumer of the job, `totalErrors` the sum of
their `numErrors`, and `i` the number of jobs, as `size_t` values and hence
exactly so when the sums are below `2 ^ 64`. The pool does drain: no schedule
is longer than the number of actions `execute` has to take, and with at least
one worker every run can go on until the pool has drained. -/
theorem execute_aggregate_totals (env : Env) (ex : ParallelExecutor)
    (hlimit : ex.debugLimitNumIndexedFiles = 0) :
    (∀ (schedule : List Event) (s : ExecState),
      execute env ex schedule = some s → Drained s →
        s.totalWarnings =
          ((jobConsumers env ex.allFiles).map (fun c => c.numWarnings)).sum % SIZE_MOD ∧
        s.totalErrors =
          ((jobConsumers env ex.allFiles).map (fun c => c.numErrors)).sum % SIZE_MOD ∧
        s.i = ex.allFiles.length % SIZE_MOD ∧
        (((jobConsumers env ex.allFiles).map (fun c => c.numWarnings)).sum < SIZE_MOD →
          s.totalWarnings = ((jobConsumers env ex.allFiles).map (fun c => c.numWarnings)).sum) ∧
        (((jobConsumers env ex.allFiles).map (fun c => c.numErrors)).sum < SIZE_MOD →
          s.totalErrors = ((jobConsumers env ex.allFiles).map (fun c => c.numErrors)).sum) ∧
        (ex.allFiles.length < SIZE_MOD → s.i = ex.allFiles.length)) ∧
    (∀ (schedule : List Event) (s : ExecState), execute env ex schedule = some s →
      schedule.length ≤ stepsLeft env (execInit ex)) ∧
    (1 ≤ env.poolSize →
      ∀ (schedule : List Event) (s : ExecState), execute env ex schedule = some s →
        ∃ more s', execute env ex (schedule ++ more) = some s' ∧ Drained s') := by
  have hfiles := allFilesInCmpdb_no_limit ex hlimit
  refine ⟨?_, execute_schedule_bounded env ex, ?_⟩
  · intro schedule s hrun hd
    have hinv := Inv_execute env ex schedule s hrun
    have hw := Drained_totalWarnings env ex s hinv hd
    have he := Drained_totalErrors env ex s hinv hd
    have hi := Drained_i env ex s hinv hd
    rw [hfiles] at hw he hi
    refine ⟨hw, he, hi, ?_, ?_, ?_⟩
    · intro hlt
      rw [hw, Nat.mod_eq_of_lt hlt]
    · intro hlt
      rw [he, Nat.mod_eq_of_lt hlt]
    · intro hlt
      rw [hi, Nat.mod_eq_of_lt hlt]
  · intro hpool schedule s hrun
    obtain ⟨more, s', hrun', _, hd⟩ := execute_can_complete env ex hpool schedule s hrun
    exact ⟨more, s', hrun', hd⟩

/-- C1, on `a.txt` (one Warning), `b.txt` (two Errors) and `c.txt` (nothing) on
two workers, `b.txt` finishing first: `totalWarnings` is 1, `totalErrors` is 2
and `i` is 3. -/
theorem execute_aggregate_totals_witness :
    execute envABC exABC scheduleABC = some finalABC ∧ Drained finalABC ∧
    finalABC.totalWarnings = 1 ∧ finalABC.totalErrors = 2 ∧ finalABC.i = 3 :=
  ⟨by decide, ⟨Or.inr rfl, by decide⟩,
   ((execute_aggregate_totals envABC exABC rfl).1 scheduleABC finalABC (by decide)
      ⟨Or.inr rfl, by decide⟩).2.2.2.1 (by decide),
   ((execute_aggregate_totals envABC exABC rfl).1 scheduleABC finalABC (by decide)
      ⟨Or.inr rfl, by decide⟩).2.2.2.2.1 (by decide),
   ((execute_aggregate_totals envABC exABC rfl).1 scheduleABC finalABC (by decide)
      ⟨Or.inr rfl, by decide⟩).2.2.2.2.2 (by decide)⟩

/-- C2: with a debug limit `L` between 1 and the size of the job list, the
jobs `execute` hands to the pool are the first `L` entries of the job list in
their order: in every reachable state the paths of the tasks followed by the
files still to submit are those `L` entries, every task is the entry at its
position below `L` (no later entry ever becomes a task), once the pool has
drained there are exactly `L` tasks, and the total in every progress line is
`L`; with at least one worker some schedule drains the pool. -/
theorem execute_debug_limit_truncates (env : Env) (ex : ParallelExecutor)
    (hL : 1 ≤ ex.debugLimitNumIndexedFiles)
    (hN : ex.debugLimitNumIndexedFiles ≤ ex.allFiles.length) :
    allFilesInCmpdb ex = ex.allFiles.take ex.debugLimitNumIndexedFiles ∧
    (allFilesInCmpdb ex).length = ex.debugLimitNumIndexedFiles ∧
    (∀ (schedule : List Event) (s : ExecState), execute env ex schedule = some s →
      s.tasks.map (fun t => t.path) ++ s.phase.rest =
        ex.allFiles.take ex.debugLimitNumIndexedFiles ∧
      s.tasks.length ≤ ex.debugLimitNumIndexedFiles ∧
      (∀ t ∈ s.tasks,
        t.idx < ex.debugLimitNumIndexedFiles ∧ ex.allFiles[t.idx]? = some t.path) ∧
      (Drained s →
        s.tasks.map (fun t => t.path) = ex.allFiles.take ex.debugLimitNumIndexedFiles ∧
        s.tasks.length = ex.debugLimitNumIndexedFiles) ∧
      (∀ n tot p, LogCall.progress n tot p ∈ s.log →
        tot = toString ex.debugLimitNumIndexedFiles)) ∧
    (1 ≤ env.poolSize → ∃ schedule s, execute env ex schedule = some s ∧ Drained s) := by
  have hfiles := allFilesInCmpdb_limit ex hL hN
  have hlen : (allFilesInCmpdb ex).length = ex.debugLimitNumIndexedFiles := by
    rw [hfiles, List.length_take]
    omega
  refine ⟨hfiles, hlen, ?_, fun hpool => ?_⟩
  case refine_2 =>
    obtain ⟨schedule, s, hrun, _, hd⟩ := execute_terminates env ex hpool
    exact ⟨schedule, s, hrun, hd⟩
  intro schedule s hrun
  have hinv := Inv_execute env ex schedule s hrun
  refine ⟨?_, ?_, ?_, ?_, ?_⟩
  · rw [← hfiles]
    exact Inv_paths env ex s hinv
  · rw [← hlen]
    exact Inv_length_le env ex s hinv
  · intro t ht
    have h := Inv_task_job env ex s hinv t ht
    rw [hfiles, List.getElem?_take] at h
    by_cases hlt : t.idx < ex.debugLimitNumIndexedFiles
    · simp only [hlt, if_true] at h
      exact ⟨hlt, h⟩
    · simp [hlt] at h
  · intro hd
    constructor
    · rw [← hfiles]
      exact Drained_paths env ex s hinv hd
    · rw [← hlen]
      exact Drained_length env ex s hinv hd
  · intro n tot p hp
    rw [hinv.progress_total n tot p hp]
    exact totalNumFiles_limit ex hL

/-- C2, on five jobs with the debug limit 2: the tasks are `1.cpp` and `2.cpp`
and the progress lines show the total 2. -/
theorem execute_debug_limit_truncates_witness :
    execute envQuiet (exFive 2) (scheduleSequential 2) = some finalLimitTwo ∧
    finalLimitTwo.tasks.map (fun t => t.path) = ["1.cpp", "2.cpp"] ∧
    finalLimitTwo.tasks.length = 2 ∧
    finalLimitTwo.log = [LogCall.progress 1 "2" "1.cpp", LogCall.progress 2 "2" "2.cpp"] ∧
    ("2" : String) = toString 2 :=
  ⟨by decide,
   (((execute_debug_limit_truncates envQuiet (exFive 2) (by decide) (by decide)).2.2.1
      (scheduleSequential 2) finalLimitTwo (by decide)).2.2.2.1 ⟨Or.inr rfl, by decide⟩).1,
   (((execute_debug_limit_truncates envQuiet (exFive 2) (by decide) (by decide)).2.2.1
      (scheduleSequential 2) finalLimitTwo (by decide)).2.2.2.1 ⟨Or.inr rfl, by decide⟩).2,
   rfl,
   ((execute_debug_limit_truncates envQuiet (exFive 2) (by decide) (by decide)).2.2.1
      (scheduleSequential 2) finalLimitTwo (by decide)).2.2.2.2 1 "2" "1.cpp" (by decide)⟩

/-- C3 fails: with the debug limit 0 and a job list of five files, `execute`
hands all five files to the pool and `i` is 5 when it returns. -/
theorem execute_limit_zero_runs_all_five :
    (allFilesInCmpdb (exFive 0)).length = 5 ∧
    execute envQuiet (exFive 0) (scheduleSequential 5) = some finalFiveQuiet ∧
    finalFiveQuiet.phase = Phase.summarized ∧
    finalFiveQuiet.tasks.length = 5 ∧
    finalFiveQuiet.i = 5 := by
  decide

/-- C3 as amended: with the debug limit 0 the job list is not truncated; once
the pool has drained the tasks are all the files of the job list, `i` is their
number (as a `size_t`), and when `execute` has returned the log holds no
summary line exactly when `totalErrors` and `totalWarnings` are both 0; with at
least one worker some schedule takes `execute` to its return. -/
theorem execute_limit_zero_is_no_limit (env : Env) (ex : ParallelExecutor)
    (hlimit : ex.debugLimitNumIndexedFiles = 0) :
    allFilesInCmpdb ex = ex.allFiles ∧
    (∀ (schedule : List Event) (s : ExecState),
      execute env ex schedule = some s → Drained s →
        s.tasks.map (fun t => t.path) = ex.allFiles ∧
        s.tasks.length = ex.allFiles.length ∧
        s.i = ex.allFiles.length % SIZE_MOD ∧
        (ex.allFiles.length < SIZE_MOD → s.i = ex.allFiles.length) ∧
        (s.phase = Phase.summarized →
          (s.log.filter LogCall.isSummary = [] ↔
            s.totalErrors = 0 ∧ s.totalWarnings = 0))) ∧
    (1 ≤ env.poolSize →
      ∃ schedule s, execute env ex schedule = some s ∧ s.phase = Phase.summarized ∧
        Drained s) := by
  have hfiles := allFilesInCmpdb_no_limit ex hlimit
  refine ⟨hfiles, ?_, execute_terminates env ex⟩
  intro schedule s hrun hd
  have hinv := Inv_execute env ex schedule s hrun
  have hp := Drained_paths env ex s hinv hd
  have hl := Drained_length env ex s hinv hd
  have hi := Drained_i env ex s hinv hd
  rw [hfiles] at hp hl hi
  refine ⟨hp, hl, hi, ?_, ?_⟩
  · intro hlt
    rw [hi, Nat.mod_eq_of_lt hlt]
  · intro hs
    rw [(Inv_summary_filter env ex s hinv).1 hs]
    exact summary_eq_nil_iff _ _ _

/-- C3 as amended, on five jobs without diagnostics and the debug limit 0:
five tasks, `i` is 5. -/
theorem execute_limit_zero_is_no_limit_witness :
    execute envQuiet (exFive 0) (scheduleSequential 5) = some finalFiveQuiet ∧
    finalFiveQuiet.tasks.map (fun t => t.path) =
      ["1.cpp", "2.cpp", "3.cpp", "4.cpp", "5.cpp"] ∧
    finalFiveQuiet.tasks.length = 5 ∧
    finalFiveQuiet.i = 5 :=
  ⟨by decide,
   ((execute_limit_zero_is_no_limit envQuiet (exFive 0) rfl).2.1 (scheduleSequential 5)
      finalFiveQuiet (by decide) ⟨Or.inr rfl, by decide⟩).1,
   ((execute_limit_zero_is_no_limit envQuiet (exFive 0) rfl).2.1 (scheduleSequential 5)
      finalFiveQuiet (by decide) ⟨Or.inr rfl, by decide⟩).2.1,
   ((execute_limit_zero_is_no_limit envQuiet (exFive 0) rfl).2.1 (scheduleSequential 5)
      finalFiveQuiet (by decide) ⟨Or.inr rfl, by decide⟩).2.2.2.1 (by decide)⟩

/-- C4 fails on the code: with the job list `a.txt` and the debug limit 3,
`resize` grows the list to `a.txt` and two empty paths, and `execute` runs a
task for each of the three, with the total 3 in the progress lines. -/
theorem execute_limit_above_size_runs_empty_paths :
    allFilesInCmpdb { allFiles := ["a.txt"], debugLimitNumIndexedFiles := 3 } =
      ["a.txt", "", ""] ∧
    (execute envQuiet { allFiles := ["a.txt"], debugLimitNumIndexedFiles := 3 }
        (scheduleSequential 3)).map
      (fun s => (s.phase, s.tasks.map (fun t => t.path), s.i, s.log)) =
      some (Phase.summarized, ["a.txt", "", ""], 3,
        [LogCall.progress 1 "3" "a.txt", LogCall.progress 2 "3" "",
          LogCall.progress 3 "3" ""]) := by
  decide

/-- C7: the summary of `execute`. With `totalErrors > 0` it is one call at the
error level whose text is "Clang encountered E errors and W warnings", followed
by the hint " (run with --verbose for more details)" exactly when the log level
is above info; otherwise with `totalWarnings > 0` it is one call at the warning
level whose text is "Clang encountered W warnings"; otherwise it is no call.
These are the summary lines of the log when `execute` has returned, and the
log has none before. -/
theorem execute_summary (logLevel : LogLevel) (totalErrors totalWarnings : Nat) :
    (0 < totalErrors →
      ∃ line, summary logLevel totalErrors totalWarnings = [line] ∧
        line.level = LogLevel.err ∧
        (LogLevel.info.toNat < logLevel.toNat →
          line.text = "Clang encountered " ++ toString totalErrors ++ " errors and " ++
            toString totalWarnings ++ " warnings" ++ " (run with --verbose for more details)") ∧
        (¬ LogLevel.info.toNat < logLevel.toNat →
          line.text = "Clang encountered " ++ toString totalErrors ++ " errors and " ++
            toString totalWarnings ++ " warnings")) ∧
    (totalErrors = 0 → 0 < totalWarnings →
      ∃ line, summary logLevel totalErrors totalWarnings = [line] ∧
        line.level = LogLevel.warn ∧
        line.text = "Clang encountered " ++ toString totalWarnings ++ " warnings") ∧
    (totalErrors = 0 → totalWarnings = 0 →
      summary logLevel totalErrors totalWarnings = []) ∧
    (∀ (env : Env) (ex : ParallelExecutor) (schedule : List Event) (s : ExecState),
      execute env ex schedule = some s →
        (s.phase = Phase.summarized →
          s.log.filter LogCall.isSummary =
            summary env.logLevel s.totalErrors s.totalWarnings) ∧
        (s.phase ≠ Phase.summarized → s.log.filter LogCall.isSummary = [])) := by
  refine ⟨?_, ?_, ?_, ?_⟩
  · intro hE
    by_cases hlvl : LogLevel.info.toNat < logLevel.toNat
    · refine ⟨LogCall.summaryErrors totalErrors totalWarnings verboseHint, ?_, rfl, ?_, ?_⟩
      · simp [summary, hE, hlvl]
      · intro _
        rfl
      · intro h
        exact absurd hlvl h
    · refine ⟨LogCall.summaryErrors totalErrors totalWarnings "", ?_, rfl, ?_, ?_⟩
      · simp [summary, hE, hlvl]
      · intro h
        exact absurd h hlvl
      · intro _
        simp [LogCall.text]
  · intro hE hW
    refine ⟨LogCall.summaryWarnings totalWarnings, ?_, rfl, rfl⟩
    simp [summary, hE, hW]
  · intro hE hW
    simp [summary, hE, hW]
  · intro env ex schedule s hrun
    exact Inv_summary_filter env ex s (Inv_execute env ex schedule s hrun)

/-- C7, on `totalErrors = 2` and `totalWarnings = 1` with the logger at level
warn: one error line, which contains "2 errors and 1 warnings". -/
theorem execute_summary_witness :
    ∃ line, summary LogLevel.warn 2 1 = [line] ∧ line.level = LogLevel.err ∧
      line.text =
        "Clang encountered 2 errors and 1 warnings (run with --verbose for more details)" ∧
      containsText line.text "2 errors and 1 warnings" = true := by
  obtain ⟨line, h1, h2, h3, _⟩ := (execute_summary LogLevel.warn 2 1).1 (by decide)
  have h4 := h3 (by decide)
  refine ⟨line, h1, h2, h4, ?_⟩
  rw [h4]
  decide

/-- C8: failure of the tool for a job is isolated. Under every schedule,
`execute` reaches a state exactly when it reaches one in the environment in
which `Tool.run` returns 0 for every job, and the two states differ only in
the failure lines of the log: the tasks, `i`, `totalWarnings`, `totalErrors`
and the phase are the same. Once the pool has drained, `i` is the number of
jobs, the totals are the sums of the counts of the consumers of the jobs, and
for every path the log holds as many failure lines naming it as there are jobs
with that path for which `Tool.run` returned non-zero; a failure line is at the
error level and names the path. With at least one worker the run can go on
until the pool has drained, whatever `Tool.run` returns. -/
theorem execute_failure_isolation (env : Env) (ex : ParallelExecutor)
    (schedule : List Event) :
    execute (allSucceed env) ex schedule =
      (execute env ex schedule).map withoutFailureLines ∧
    (∀ s : ExecState, execute env ex schedule = some s →
      (∃ s0, execute (allSucceed env) ex schedule = some s0 ∧
        s0.tasks = s.tasks ∧ s0.i = s.i ∧ s0.totalWarnings = s.totalWarnings ∧
        s0.totalErrors = s.totalErrors ∧ s0.phase = s.phase ∧
        s0.log = s.log.filter (fun c => !c.isParseFailure)) ∧
      (Drained s →
        s.i = (allFilesInCmpdb ex).length % SIZE_MOD ∧
        s.tasks.map (fun t => t.path) = allFilesInCmpdb ex ∧
        s.totalWarnings =
          ((jobConsumers env (allFilesInCmpdb ex)).map (fun c => c.numWarnings)).sum %
            SIZE_MOD ∧
        s.totalErrors =
          ((jobConsumers env (allFilesInCmpdb ex)).map (fun c => c.numErrors)).sum %
            SIZE_MOD ∧
        ∀ p : String, s.log.count (LogCall.parseFailure p) =
          ((allFilesInCmpdb ex).enum.filter
            (fun kp => decide (kp.2 = p ∧ (env.toolRun kp.1 kp.2).ret ≠ 0))).length)) ∧
    (∀ p : String, (LogCall.parseFailure p).level = LogLevel.err ∧
      (LogCall.parseFailure p).text =
        "Clang failed to parse source file: " ++ p ++
          ". Information from this file may be missing from hdoc\x27s output") ∧
    (1 ≤ env.poolSize → ∀ s : ExecState, execute env ex schedule = some s →
      ∃ more s', execute env ex (schedule ++ more) = some s' ∧ Drained s') := by
  refine ⟨execute_allSucceed env ex schedule, ?_, fun p => ⟨rfl, rfl⟩, ?_⟩
  case refine_2 =>
    intro hpool s hrun
    obtain ⟨more, s', hrun', _, hd⟩ := execute_can_complete env ex hpool schedule s hrun
    exact ⟨more, s', hrun', hd⟩
  intro s hrun
  constructor
  · refine ⟨withoutFailureLines s, ?_, rfl, rfl, rfl, rfl, rfl, rfl⟩
    rw [execute_allSucceed, hrun]
    rfl
  · intro hd
    have hinv := Inv_execute env ex schedule s hrun
    exact ⟨Drained_i env ex s hinv hd, Drained_paths env ex s hinv hd,
      Drained_totalWarnings env ex s hinv hd, Drained_totalErrors env ex s hinv hd,
      Drained_failures env ex s hinv hd⟩

/-- C8, on five jobs of which the third fails: `i` is 5 when `execute` returns,
the five jobs were run, and the log holds one failure line, for `3.cpp`. -/
theorem execute_failure_isolation_witness :
    execute envThirdFails (exFive 0) (scheduleSequential 5) = some finalThirdFails ∧
    finalThirdFails.i = 5 ∧
    finalThirdFails.tasks.map (fun t => t.path) =
      ["1.cpp", "2.cpp", "3.cpp", "4.cpp", "5.cpp"] ∧
    finalThirdFails.totalWarnings = 0 ∧
    finalThirdFails.totalErrors = 0 ∧
    finalThirdFails.log.count (LogCall.parseFailure "3.cpp") = 1 ∧
    finalThirdFails.log.count (LogCall.parseFailure "4.cpp") = 0 :=
  ⟨by decide,
   (((execute_failure_isolation envThirdFails (exFive 0) (scheduleSequential 5)).2.1
      finalThirdFails (by decide)).2 ⟨Or.inr rfl, by decide⟩).1,
   (((execute_failure_isolation envThirdFails (exFive 0) (scheduleSequential 5)).2.1
      finalThirdFails (by decide)).2 ⟨Or.inr rfl, by decide⟩).2.1,
   (((execute_failure_isolation envThirdFails (exFive 0) (scheduleSequential 5)).2.1
      finalThirdFails (by decide)).2 ⟨Or.inr rfl, by decide⟩).2.2.1,
   (((execute_failure_isolation envThirdFails (exFive 0) (scheduleSequential 5)).2.1
      finalThirdFails (by decide)).2 ⟨Or.inr rfl, by decide⟩).2.2.2.1,
   (((execute_failure_isolation envThirdFails (exFive 0) (scheduleSequential 5)).2.1
      finalThirdFails (by decide)).2 ⟨Or.inr rfl, by decide⟩).2.2.2.2 "3.cpp",
   (((execute_failure_isolation envThirdFails (exFive 0) (scheduleSequential 5)).2.1
      finalThirdFails (by decide)).2 ⟨Or.inr rfl, by decide⟩).2.2.2.2 "4.cpp"⟩

/-- C10 fails: for the one job `a.txt`, after the job is submitted and its
task has started, `i` is 1 while no task closure has finished running. -/
theorem execute_progress_counter_ahead :
    execute envABC { allFiles := ["a.txt"], debugLimitNumIndexedFiles := 0 }
      [Event.main, Event.task 0] = some midOneStarted ∧
    midOneStarted.i = 1 ∧
    finishedCount midOneStarted.tasks = 0 ∧
    midOneStarted.i ≠ finishedCount midOneStarted.tasks := by
  decide

/-- C10 as amended: in every reachable state of `execute`, `i` is the number of
tasks whose closure has started (as a `size_t`), which is the number of
finished tasks plus the number of tasks that occupy a worker; so `i` is the
number of finished tasks whenever no task occupies a worker, and it is the
number of jobs once the pool has drained. -/
theorem execute_progress_counter (env : Env) (ex : ParallelExecutor) (s : ExecState)
    (hreach : Reachable env ex s) :
    s.i = startedCount s.tasks % SIZE_MOD ∧
    startedCount s.tasks = finishedCount s.tasks + activeCount s.tasks ∧
    (startedCount s.tasks < SIZE_MOD → s.i = startedCount s.tasks) ∧
    (activeCount s.tasks = 0 → s.i = finishedCount s.tasks % SIZE_MOD) ∧
    (Drained s →
      s.i = finishedCount s.tasks % SIZE_MOD ∧
      finishedCount s.tasks = (allFilesInCmpdb ex).length) := by
  obtain ⟨schedule, hrun⟩ := hreach
  have hinv := Inv_execute env ex schedule s hrun
  have hi : s.i = startedCount s.tasks % SIZE_MOD := by
    rw [startedCount_eq_sum]
    exact hinv.i_eq
  have hsplit := counts_split s.tasks
  refine ⟨hi, hsplit, ?_, ?_, ?_⟩
  · intro hlt
    rw [hi, Nat.mod_eq_of_lt hlt]
  · intro h0
    rw [hi, hsplit, h0, Nat.add_zero]
  · intro hd
    have hf := Drained_finishedCount s hd
    have hl := Drained_length env ex s hinv hd
    constructor
    · rw [hf, hl]
      exact Drained_i env ex s hinv hd
    · rw [hf, hl]

/-- C10 as amended, on the state in which the one job `a.txt` has started:
`i` is 1, one task has started, none has finished, one occupies a worker. -/
theorem execute_progress_counter_witness :
    Reachable envABC { allFiles := ["a.txt"], debugLimitNumIndexedFiles := 0 } midOneStarted ∧
    midOneStarted.i = 1 ∧
    startedCount midOneStarted.tasks = 1 ∧
    finishedCount midOneStarted.tasks = 0 ∧
    activeCount midOneStarted.tasks = 1 :=
  ⟨⟨[Event.main, Event.task 0], by decide⟩,
   (execute_progress_counter envABC { allFiles := ["a.txt"], debugLimitNumIndexedFiles := 0 }
      midOneStarted ⟨[Event.main, Event.task 0], by decide⟩).2.2.1 (by decide),
   by decide, by decide, by decide⟩

end Hdoc
